import Mathlib

/-!
# hsi-data-generator: the layout generation engine (`src/hsi/image_layout.cpp`)

A shallow embedding of `ImageLayout` and of its generators, and theorems about them.

Conventions of the embedding.

* A C++ `int` is a Lean `Int`.  Arithmetic is exact: the theorems speak about runs in
  which no signed overflow happens (signed overflow is undefined behaviour in C++).
* `/` and `%` on `int` truncate towards zero (`Int.tdiv`, `Int.tmod`); a zero divisor is the
  fault `Fault.divByZero`.
* `std::vector<T>` is a `List T`.  An access outside `[0, size)` is the fault
  `Fault.outOfBounds`, a `resize` to a negative size is `Fault.badAlloc`.
* A `while` loop whose number of iterations is not bounded syntactically takes a fuel
  argument and ends in `Fault.outOfFuel` when the fuel is used up.
* `qrand()` is the stream `rnd : Nat → Nat`; the state counts the draws made so far.
-/

namespace hsi_data_generator

/-- The ways in which a run of the embedded code can fail to produce a result. -/
inductive Fault where
  | divByZero
  | outOfBounds
  | badAlloc
  | outOfFuel
  deriving DecidableEq, Repr

deriving instance DecidableEq for Except

/-- C++ `a / b` on `int`: truncation towards zero, a fault when `b = 0`. -/
def cdiv (a b : Int) : Except Fault Int :=
  if b = 0 then .error .divByZero else .ok (Int.tdiv a b)

/-- C++ `a % b` on `int`: remainder of the truncating division, a fault when `b = 0`. -/
def cmod (a b : Int) : Except Fault Int :=
  if b = 0 then .error .divByZero else .ok (Int.tmod a b)

/-- Read `v[i]` of a `std::vector`. -/
def vget {α : Type} (v : List α) (i : Int) : Except Fault α :=
  if 0 ≤ i then
    match v[i.toNat]? with
    | some a => .ok a
    | none => .error .outOfBounds
  else .error .outOfBounds

/-- Write `v[i] = a` of a `std::vector`. -/
def vset {α : Type} (v : List α) (i : Int) (a : α) : Except Fault (List α) :=
  if 0 ≤ i ∧ i.toNat < v.length then .ok (v.set i.toNat a) else .error .outOfBounds

/-- The call `v.resize(n)` of a `std::vector<int>`: the first `n` entries are kept, new
entries are value-initialised to `0`. -/
def vresize (v : List Int) (n : Int) : Except Fault (List Int) :=
  if 0 ≤ n then .ok (v.take n.toNat ++ List.replicate (n.toNat - v.length) 0)
  else .error .badAlloc

/-- The call `std::fill(v.begin() + first, v.begin() + last, value)`. -/
def vfill (v : List Int) (first last value : Int) : Except Fault (List Int) :=
  if 0 ≤ first ∧ first ≤ last ∧ last.toNat ≤ v.length then
    .ok (v.take first.toNat ++ List.replicate (last - first).toNat value ++ v.drop last.toNat)
  else .error .outOfBounds

/-- The loop `for (int i = 0; i < n; ++i) body(i)` over a state `σ`. -/
def forLoop {σ : Type} (n : Int) (body : Int → σ → Except Fault σ) (init : σ) :
    Except Fault σ :=
  (List.range n.toNat).foldlM (fun s (i : Nat) => body (i : Int) s) init

/-- The constant `kDefaultMaxStripeWidth`. -/
def kDefaultMaxStripeWidth : Int := 25

/-- The list `kCoordinateNeighborOffsets` of (row, column) offsets: left, right, top, bottom. -/
def kCoordinateNeighborOffsets : List (Int × Int) :=
  [(0, -1), (0, 1), (-1, 0), (1, 0)]

/-- The enumeration of layout kinds that `previous_layout_` ranges over. -/
inductive LayoutType where
  | LAYOUT_TYPE_NONE
  | LAYOUT_TYPE_HORIZONTAL_STRIPES
  | LAYOUT_TYPE_VERTICAL_STRIPES
  | LAYOUT_TYPE_GRID
  | LAYOUT_TYPE_RANDOM
  deriving DecidableEq, Repr

/-- The data members of the class `ImageLayout`. -/
structure ImageLayout where
  image_width_ : Int
  image_height_ : Int
  spectral_class_map_ : List Int
  previous_layout_ : LayoutType
  previous_num_classes_ : Int
  previous_size_parameter_ : Int
  deriving DecidableEq, Repr

namespace ImageLayout

/-- The constructor `ImageLayout::ImageLayout(image_width, image_height)`. -/
def construct (image_width image_height : Int) : Except Fault ImageLayout := do
  let map ← vresize [] (image_width * image_height)
  pure
    { image_width_ := image_width
      image_height_ := image_height
      spectral_class_map_ := map
      previous_layout_ := .LAYOUT_TYPE_NONE
      previous_num_classes_ := 0
      previous_size_parameter_ := 0 }

/-- The local `pixels_per_class` of the three pattern generators: the size parameter when it
is positive, else `std::min(dimension / num_classes, kDefaultMaxStripeWidth)`. -/
def pixels_per_class (dimension num_classes size_parameter : Int) : Except Fault Int :=
  if size_parameter ≤ 0 then do
    let q ← cdiv dimension num_classes
    pure (min q kDefaultMaxStripeWidth)
  else pure size_parameter

/-- The body of the row loop of `GenerateHorizontalStripesLayout`. -/
def horizontalRow (image_width num_classes ppc : Int) (row : Int) (map : List Int) :
    Except Fault (List Int) := do
  let q ← cdiv row ppc
  let class_index ← cmod q num_classes
  vfill map (row * image_width) ((row + 1) * image_width) class_index

/-- The method `ImageLayout::GenerateHorizontalStripesLayout`. -/
def GenerateHorizontalStripesLayout (self : ImageLayout) (num_classes stripe_width : Int) :
    Except Fault ImageLayout := do
  let ppc ← pixels_per_class self.image_height_ num_classes stripe_width
  let map ← forLoop self.image_height_ (horizontalRow self.image_width_ num_classes ppc)
    self.spectral_class_map_
  pure
    { self with
      spectral_class_map_ := map
      previous_layout_ := .LAYOUT_TYPE_HORIZONTAL_STRIPES
      previous_num_classes_ := num_classes
      previous_size_parameter_ := stripe_width }

/-- The body of the column loop of `GenerateVerticalStripesLayout`. -/
def verticalCol (image_width image_height num_classes ppc : Int) (col : Int)
    (map : List Int) : Except Fault (List Int) := do
  let q ← cdiv col ppc
  let class_index ← cmod q num_classes
  forLoop image_height (fun row m => vset m (row * image_width + col) class_index) map

/-- The method `ImageLayout::GenerateVerticalStripesLayout`. -/
def GenerateVerticalStripesLayout (self : ImageLayout) (num_classes stripe_width : Int) :
    Except Fault ImageLayout := do
  let ppc ← pixels_per_class self.image_width_ num_classes stripe_width
  let map ← forLoop self.image_width_
    (verticalCol self.image_width_ self.image_height_ num_classes ppc) self.spectral_class_map_
  pure
    { self with
      spectral_class_map_ := map
      previous_layout_ := .LAYOUT_TYPE_VERTICAL_STRIPES
      previous_num_classes_ := num_classes
      previous_size_parameter_ := stripe_width }

/-- The body of the inner (column) loop of `GenerateGridLayout`. -/
def gridCell (image_width num_classes ppc : Int) (row col : Int) (map : List Int) :
    Except Fault (List Int) := do
  let index := row * image_width + col
  let qr ← cdiv row ppc
  let qc ← cdiv col ppc
  let class_index ← cmod (qr + qc) num_classes
  vset map index class_index

/-- The method `ImageLayout::GenerateGridLayout`. -/
def GenerateGridLayout (self : ImageLayout) (num_classes square_width : Int) :
    Except Fault ImageLayout := do
  let ppc ← pixels_per_class self.image_width_ num_classes square_width
  let map ← forLoop self.image_height_
    (fun row m => forLoop self.image_width_ (gridCell self.image_width_ num_classes ppc row) m)
    self.spectral_class_map_
  pure
    { self with
      spectral_class_map_ := map
      previous_layout_ := .LAYOUT_TYPE_GRID
      previous_num_classes_ := num_classes
      previous_size_parameter_ := square_width }

/-- The method `ImageLayout::GetMapIndex`. -/
def GetMapIndex (self : ImageLayout) (x_col y_row : Int) : Int :=
  y_row * self.image_width_ + x_col

/-- The method `ImageLayout::GetClassAtPixel`. -/
def GetClassAtPixel (self : ImageLayout) (x_col y_row : Int) : Except Fault Int :=
  vget self.spectral_class_map_ (self.GetMapIndex x_col y_row)

/-- The method `ImageLayout::ResetLayout`. -/
def ResetLayout (self : ImageLayout) : ImageLayout :=
  { self with spectral_class_map_ := self.spectral_class_map_.map (fun _ => 0) }

/-- The state of a run of `GenerateRandomLayout`: the class map, the locals of the method,
the number of `qrand()` draws made so far, and a record of the writes to the class map as
pairs (cell index, value): `blob` holds the writes of the current iteration of the outer
loop in the order they were made, `blobs` those of the completed iterations. -/
structure RandomState where
  spectral_class_map_ : List Int
  filled_in_pixels : List Bool
  num_pixels_remaining : Int
  edge_pixels : List Int
  draws : Nat
  blob : List (Int × Int)
  blobs : List (List (Int × Int))
  deriving DecidableEq, Repr

/-- The seed search of `GenerateRandomLayout`:
`while (filled_in_pixels[start_index]) { start_index++; if (start_index >= size) start_index = 0; }`
run for at most `fuel` evaluations of the loop condition. -/
def seedScan (filled_in_pixels : List Bool) : Nat → Int → Except Fault Int
  | 0, _ => .error .outOfFuel
  | fuel + 1, start_index => do
    let filled ← vget filled_in_pixels start_index
    if filled then
      let next := start_index + 1
      seedScan filled_in_pixels fuel (if next ≥ filled_in_pixels.length then 0 else next)
    else pure start_index

/-- The loop over `kCoordinateNeighborOffsets` of `GenerateRandomLayout` that collects
`neighbor_candidates`: the neighbours of (`expand_row`, `expand_col`) that are inside the image
and not filled in, in the order of the offsets. -/
def neighborCandidates (width height : Int) (filled_in_pixels : List Bool)
    (expand_row expand_col : Int) : List (Int × Int) → Except Fault (List Int)
  | [] => pure []
  | offset :: rest =>
    let row := expand_row + offset.1
    if row < 0 ∨ row ≥ height then
      neighborCandidates width height filled_in_pixels expand_row expand_col rest
    else
      let col := expand_col + offset.2
      if col < 0 ∨ col ≥ width then
        neighborCandidates width height filled_in_pixels expand_row expand_col rest
      else do
        let neighbor_index := row * width + col
        let filled ← vget filled_in_pixels neighbor_index
        let later ← neighborCandidates width height filled_in_pixels expand_row expand_col rest
        pure (if !filled then neighbor_index :: later else later)

/-- The body of the loop `for (int i = 1; i < random_blob_size; ++i)` of
`GenerateRandomLayout`, after the check that breaks out of the loop. -/
def growStep (rnd : Nat → Nat) (width height current_class : Int) (s : RandomState) :
    Except Fault RandomState := do
  let edge_index ← cmod (rnd s.draws) s.edge_pixels.length
  let expand_index ← vget s.edge_pixels edge_index
  let expand_row ← cdiv expand_index width
  let expand_col ← cmod expand_index width
  let neighbor_candidates ← neighborCandidates width height s.filled_in_pixels
    expand_row expand_col kCoordinateNeighborOffsets
  if neighbor_candidates.length = 0 then
    pure
      { s with
        edge_pixels := s.edge_pixels.eraseIdx edge_index.toNat
        draws := s.draws + 1 }
  else do
    let pick ← cmod (rnd (s.draws + 1)) neighbor_candidates.length
    let neighbor_index ← vget neighbor_candidates pick
    let map ← vset s.spectral_class_map_ neighbor_index current_class
    let filled ← vset s.filled_in_pixels neighbor_index true
    pure
      { s with
        spectral_class_map_ := map
        filled_in_pixels := filled
        edge_pixels := s.edge_pixels ++ [neighbor_index]
        num_pixels_remaining := s.num_pixels_remaining - 1
        draws := s.draws + 2
        blob := s.blob ++ [(neighbor_index, current_class)] }

/-- The loop `for (int i = 1; i < random_blob_size; ++i)` of `GenerateRandomLayout`, given
the number of values of `i` that are left; every iteration, also one that only erases an
edge pixel, uses up one value of `i`. -/
def growLoop (rnd : Nat → Nat) (width height current_class : Int) :
    Nat → RandomState → Except Fault RandomState
  | 0, s => pure s
  | k + 1, s =>
    if s.num_pixels_remaining ≤ 0 ∨ s.edge_pixels.isEmpty then pure s
    else do
      let next ← growStep rnd width height current_class s
      growLoop rnd width height current_class k next

/-- The body of the loop `while (num_pixels_remaining > 0)` of `GenerateRandomLayout`: one
blob.  `fuel` bounds the seed search. -/
def blobIteration (rnd : Nat → Nat) (fuel : Nat) (width height num_classes random_blob_size : Int)
    (s : RandomState) : Except Fault RandomState := do
  let current_class ← cmod (rnd s.draws) num_classes
  let start ← cmod (rnd (s.draws + 1)) s.num_pixels_remaining
  let start_index ← seedScan s.filled_in_pixels fuel start
  let map ← vset s.spectral_class_map_ start_index current_class
  let filled ← vset s.filled_in_pixels start_index true
  let grown ← growLoop rnd width height current_class (random_blob_size - 1).toNat
    { s with
      spectral_class_map_ := map
      num_pixels_remaining := s.num_pixels_remaining - 1
      filled_in_pixels := filled
      edge_pixels := [start_index]
      draws := s.draws + 2
      blob := [(start_index, current_class)] }
  pure { grown with edge_pixels := [], blob := [], blobs := grown.blobs ++ [grown.blob] }

/-- The loop `while (num_pixels_remaining > 0)` of `GenerateRandomLayout`, run for at most
`k` iterations; `fuel` bounds each seed search. -/
def blobLoop (rnd : Nat → Nat) (fuel : Nat) (width height num_classes random_blob_size : Int) :
    Nat → RandomState → Except Fault RandomState
  | 0, s => if s.num_pixels_remaining > 0 then .error .outOfFuel else pure s
  | k + 1, s =>
    if s.num_pixels_remaining > 0 then do
      let next ← blobIteration rnd fuel width height num_classes random_blob_size s
      blobLoop rnd fuel width height num_classes random_blob_size k next
    else pure s

/-- The result of a run of `GenerateRandomLayout`: the object after the call, the writes to
the class map grouped by iteration of the outer loop, and the number of draws made. -/
structure RandomRun where
  layout : ImageLayout
  blobs : List (List (Int × Int))
  draws : Nat
  deriving DecidableEq, Repr

/-- The method `ImageLayout::GenerateRandomLayout`, with `qrand()` read from `rnd` and each
`while` loop bounded by `fuel`. -/
def GenerateRandomLayout (rnd : Nat → Nat) (fuel : Nat) (self : ImageLayout)
    (num_classes random_blob_size : Int) : Except Fault RandomRun := do
  let width := self.image_width_
  let height := self.image_height_
  let num_pixels_remaining : Int := self.spectral_class_map_.length
  let filled_in_pixels := List.replicate self.spectral_class_map_.length false
  let final ← blobLoop rnd fuel width height num_classes random_blob_size fuel
    { spectral_class_map_ := self.spectral_class_map_
      filled_in_pixels := filled_in_pixels
      num_pixels_remaining := num_pixels_remaining
      edge_pixels := []
      draws := 0
      blob := []
      blobs := [] }
  pure
    { layout :=
        { self with
          spectral_class_map_ := final.spectral_class_map_
          previous_layout_ := .LAYOUT_TYPE_RANDOM
          previous_num_classes_ := num_classes
          previous_size_parameter_ := random_blob_size }
      blobs := final.blobs
      draws := final.draws }

/-- The image handed to `GenerateLayoutFromImage`, as the method sees it after
`scaled(image_width_, image_height_)` and the conversion to grayscale:
`pixelGray x y` is `qGray(image.pixel(x, y))`, where Qt's `QImage::pixel(int x, int y)` takes
the column `x` first and the row `y` second. -/
structure QImage where
  pixelGray : Int → Int → Int

/-- The expression `gray_value / (256 / num_classes)` of `GenerateLayoutFromImage`. -/
def quantizedClass (num_classes gray_value : Int) : Except Fault Int := do
  let bin ← cdiv 256 num_classes
  cdiv gray_value bin

/-- The body of the inner loop of the last loop nest of `GenerateLayoutFromImage`; the source
reads `image.pixel(row, col)`. -/
def imageCell (image_width num_classes : Int) (image : QImage) (row col : Int)
    (map : List Int) : Except Fault (List Int) := do
  let index := row * image_width + col
  let gray_value := image.pixelGray row col
  let class_index ← quantizedClass num_classes gray_value
  vset map index class_index

/-- The method `ImageLayout::GenerateLayoutFromImage`. -/
def GenerateLayoutFromImage (self : ImageLayout) (num_classes : Int) (layout_image : QImage) :
    Except Fault ImageLayout := do
  let map ← forLoop self.image_height_
    (fun row m =>
      forLoop self.image_width_ (imageCell self.image_width_ num_classes layout_image row) m)
    self.spectral_class_map_
  pure { self with spectral_class_map_ := map }

/-- The method `ImageLayout::SetImageSize`. -/
def SetImageSize (rnd : Nat → Nat) (fuel : Nat) (self : ImageLayout) (width height : Int) :
    Except Fault ImageLayout := do
  let map ← vresize self.spectral_class_map_ (width * height)
  let resized : ImageLayout :=
    { self with image_width_ := width, image_height_ := height, spectral_class_map_ := map }
  match resized.previous_layout_ with
  | .LAYOUT_TYPE_HORIZONTAL_STRIPES =>
    resized.GenerateHorizontalStripesLayout
      resized.previous_num_classes_ resized.previous_size_parameter_
  | .LAYOUT_TYPE_VERTICAL_STRIPES =>
    resized.GenerateVerticalStripesLayout
      resized.previous_num_classes_ resized.previous_size_parameter_
  | .LAYOUT_TYPE_GRID =>
    resized.GenerateGridLayout resized.previous_num_classes_ resized.previous_size_parameter_
  | .LAYOUT_TYPE_RANDOM => do
    let run ← GenerateRandomLayout rnd fuel resized
      resized.previous_num_classes_ resized.previous_size_parameter_
    pure run.layout
  | .LAYOUT_TYPE_NONE => pure resized

end ImageLayout

/-- A class map of a `width` x `height` grid whose cell in row `row` and column `col` holds
`f row col`. -/
def Painted (width height : Int) (f : Int → Int → Int) (map : List Int) : Prop :=
  (map.length : Int) = width * height ∧
    ∀ row col : Int, 0 ≤ row → row < height → 0 ≤ col → col < width →
      map[(row * width + col).toNat]? = some (f row col)

/-- Cells `a` and `b` (linear indices `row * width + col`) of a grid of width `width` are
neighbours: same row and columns one apart, or same column and rows one apart. -/
def Adjacent4 (width : Int) (a b : Int) : Prop :=
  (a / width = b / width ∧ (a % width = b % width + 1 ∨ b % width = a % width + 1)) ∨
    (a % width = b % width ∧ (a / width = b / width + 1 ∨ b / width = a / width + 1))

instance (width a b : Int) : Decidable (Adjacent4 width a b) := by
  unfold Adjacent4
  infer_instance

/-- The cells of `cells` form a connected subgraph of the grid under left/right/top/bottom
adjacency: any two of them are joined by a path of neighbours that stays inside `cells`. -/
def Connected4 (width : Int) (cells : List Int) : Prop :=
  ∀ a ∈ cells, ∀ b ∈ cells,
    Relation.ReflTransGen (fun u v => u ∈ cells ∧ v ∈ cells ∧ Adjacent4 width u v) a b

/-- A list of cells that starts with a seed and in which every later cell is a neighbour of
an earlier one. -/
inductive Grown (width : Int) : List Int → Prop
  | seed (a : Int) : Grown width [a]
  | grow {cells : List Int} {a b : Int} :
      Grown width cells → a ∈ cells → Adjacent4 width a b → Grown width (cells ++ [b])

/-- All writes to the class map recorded in a state, in the order they were made. -/
def ImageLayout.RandomState.written (s : ImageLayout.RandomState) : List (Int × Int) :=
  s.blobs.flatten ++ s.blob

/-- The invariant of the loops of `GenerateRandomLayout` that keeps the run free of faults:
the class map and the filled mask have `width * height` entries, `num_pixels_remaining` is
the number of `false` entries of the mask, and the edge pixels are cells of the grid. -/
structure RandomInv (width height : Int) (s : ImageLayout.RandomState) : Prop where
  width_pos : 1 ≤ width
  height_pos : 1 ≤ height
  map_size : (s.spectral_class_map_.length : Int) = width * height
  filled_size : (s.filled_in_pixels.length : Int) = width * height
  remaining_eq : s.num_pixels_remaining = (s.filled_in_pixels.count false : Int)
  edge_range : ∀ e ∈ s.edge_pixels, 0 ≤ e ∧ e < width * height

/-- The invariant that ties the record of writes to the state: a cell is recorded iff it is
marked filled, no cell is recorded twice, the class map holds the recorded value, the
recorded values are classes, and every completed blob was grown from a seed, has one class
and has at most `max random_blob_size 1` cells. -/
structure LogInv (width num_classes random_blob_size : Int) (s : ImageLayout.RandomState) :
    Prop where
  nodup : (s.written.map Prod.fst).Nodup
  filled_iff : ∀ i : Int, i ∈ s.written.map Prod.fst ↔
    (0 ≤ i ∧ s.filled_in_pixels[i.toNat]? = some true)
  values : ∀ p ∈ s.written, s.spectral_class_map_[p.1.toNat]? = some p.2
  classes : ∀ p ∈ s.written, 0 ≤ p.2 ∧ p.2 < num_classes
  blobs_grown : ∀ b ∈ s.blobs, Grown width (b.map Prod.fst)
  blobs_class : ∀ b ∈ s.blobs, ∃ c, ∀ p ∈ b, p.2 = c
  blobs_size : ∀ b ∈ s.blobs, (b.length : Int) ≤ max random_blob_size 1

/-- The invariant of the growth loop about the blob being grown: it was grown from its seed,
all its cells got `current_class`, and the edge pixels are cells of the blob. -/
structure BlobInv (width current_class : Int) (s : ImageLayout.RandomState) : Prop where
  blob_grown : Grown width (s.blob.map Prod.fst)
  blob_class : ∀ p ∈ s.blob, p.2 = current_class
  edge_sub : ∀ e ∈ s.edge_pixels, e ∈ s.blob.map Prod.fst

/-- The size invariant of `ImageLayout`:
`spectral_class_map_.size() == image_width_ * image_height_`. -/
def SizeInv (self : ImageLayout) : Prop :=
  (self.spectral_class_map_.length : Int) = self.image_width_ * self.image_height_

/-! ## Arithmetic and vector lemmas -/

theorem cdiv_ok {a b : Int} (ha : 0 ≤ a) (hb : 0 < b) : cdiv a b = .ok (a / b) := by
  have hb0 : b ≠ 0 := by omega
  simp [cdiv, hb0, Int.tdiv_eq_ediv ha (le_of_lt hb)]

theorem cmod_ok {a b : Int} (ha : 0 ≤ a) (hb : 0 < b) : cmod a b = .ok (a % b) := by
  have hb0 : b ≠ 0 := by omega
  simp [cmod, hb0, Int.tmod_eq_emod ha (le_of_lt hb)]

theorem vget_ok {α : Type} {v : List α} {i : Int} {a : α} (h0 : 0 ≤ i)
    (h : v[i.toNat]? = some a) : vget v i = .ok a := by
  simp [vget, h0, h]

theorem vget_eq_ok {α : Type} {v : List α} {i : Int} {a : α} (h : vget v i = .ok a) :
    0 ≤ i ∧ v[i.toNat]? = some a := by
  unfold vget at h
  split at h
  · rename_i h0
    refine ⟨h0, ?_⟩
    split at h
    · rename_i b hb
      cases h
      exact hb
    · cases h
  · cases h

theorem vset_ok {α : Type} {v : List α} {i : Int} (a : α) (h0 : 0 ≤ i)
    (h : i.toNat < v.length) : vset v i a = .ok (v.set i.toNat a) := by
  simp [vset, h0, h]

theorem cell_lt {width height row col : Int} (hr : row < height)
    (hc : col < width) (hw : 0 ≤ width) : row * width + col < width * height := by
  have h1 : (row + 1) * width ≤ height * width :=
    Int.mul_le_mul_of_nonneg_right (by omega) hw
  have h2 : (row + 1) * width = row * width + width := by ring
  have h3 : height * width = width * height := by ring
  omega

theorem cell_nonneg {width row col : Int} (hr0 : 0 ≤ row) (hc0 : 0 ≤ col) (hw : 0 ≤ width) :
    0 ≤ row * width + col := by
  have := Int.mul_nonneg hr0 hw
  omega

theorem cell_lt_row {width r row x : Int} (hr : r < row) (hx : x < width) (hw : 0 ≤ width) :
    r * width + x < row * width := by
  have h1 : (r + 1) * width ≤ row * width :=
    Int.mul_le_mul_of_nonneg_right (by omega) hw
  have h2 : (r + 1) * width = r * width + width := by ring
  omega

theorem forLoop_inv {σ : Type} (n : Int) (body : Int → σ → Except Fault σ) (init : σ)
    (P : Nat → σ → Prop) (h0 : P 0 init)
    (hstep : ∀ (i : Nat) (s : σ), (i : Int) < n → P i s →
      ∃ s', body (i : Int) s = .ok s' ∧ P (i + 1) s') :
    ∃ s', forLoop n body init = .ok s' ∧ P n.toNat s' := by
  unfold forLoop
  have key : ∀ k : Nat, k ≤ n.toNat →
      ∃ s', (List.range k).foldlM (fun s (i : Nat) => body (i : Int) s) init = .ok s' ∧ P k s' := by
    intro k
    induction k with
    | zero => intro _; exact ⟨init, rfl, h0⟩
    | succ k ih =>
      intro hk
      obtain ⟨s, hs, hP⟩ := ih (by omega)
      obtain ⟨s', hs', hP'⟩ := hstep k s (by omega) hP
      refine ⟨s', ?_, hP'⟩
      rw [List.range_succ, List.foldlM_append, hs]
      simp [List.foldlM, hs', bind, Except.bind, pure, Except.pure]
  exact key n.toNat le_rfl

theorem Painted.unique {width height : Int} {f : Int → Int → Int} {m m' : List Int}
    (hw : 0 ≤ width) (h : Painted width height f m) (h' : Painted width height f m') :
    m = m' := by
  obtain ⟨hl, hc⟩ := h
  obtain ⟨hl', hc'⟩ := h'
  apply List.ext_getElem?
  intro i
  by_cases hi : i < m.length
  · have hpos : 0 < width := by
      rcases lt_or_ge 0 width with h | h
      · exact h
      · have : width = 0 := by omega
        rw [this, Int.zero_mul] at hl
        omega
    have hrow0 : 0 ≤ (i : Int) / width := Int.ediv_nonneg (by omega) hw
    have hcol0 : 0 ≤ (i : Int) % width := Int.emod_nonneg _ (by omega)
    have hcol : (i : Int) % width < width := Int.emod_lt_of_pos _ hpos
    have hrow : (i : Int) / width < height := by
      apply Int.ediv_lt_of_lt_mul hpos
      have : height * width = width * height := by ring
      omega
    have hi' : ((i : Int) / width * width + (i : Int) % width).toNat = i := by
      have := Int.ediv_add_emod (i : Int) width
      have h2 : (i : Int) / width * width = width * ((i : Int) / width) := by ring
      omega
    have e1 := hc _ _ hrow0 hrow hcol0 hcol
    have e2 := hc' _ _ hrow0 hrow hcol0 hcol
    rw [hi'] at e1 e2
    rw [e1, e2]
  · rw [List.getElem?_eq_none (by omega), List.getElem?_eq_none (by omega)]

theorem vfill_ok {v : List Int} {first last : Int} (c : Int) (h0 : 0 ≤ first)
    (h1 : first ≤ last) (h2 : last.toNat ≤ v.length) :
    ∃ v', vfill v first last c = .ok v' ∧ v'.length = v.length ∧
      ∀ j : Nat, v'[j]? = if first.toNat ≤ j ∧ j < last.toNat then some c else v[j]? := by
  refine ⟨v.take first.toNat ++ List.replicate (last - first).toNat c ++ v.drop last.toNat,
    by simp [vfill, h0, h1, h2], ?_, ?_⟩
  · simp only [List.length_append, List.length_take, List.length_replicate, List.length_drop]
    omega
  · intro j
    simp only [List.getElem?_append, List.length_append, List.length_take,
      List.length_replicate, List.getElem?_take, List.getElem?_replicate, List.getElem?_drop]
    by_cases hj1 : j < first.toNat
    · have e1 : j < min first.toNat v.length := by omega
      have e2 : j < min first.toNat v.length + (last - first).toNat := by omega
      have e3 : ¬ (first.toNat ≤ j ∧ j < last.toNat) := by omega
      rw [if_neg e3]
      simp [e1, e2, hj1]
    · by_cases hj2 : j < last.toNat
      · have e1 : ¬ j < min first.toNat v.length := by omega
        have e2 : j < min first.toNat v.length + (last - first).toNat := by omega
        have e3 : first.toNat ≤ j ∧ j < last.toNat := by omega
        have e4 : j - min first.toNat v.length < (last - first).toNat := by omega
        rw [if_pos e3]
        simp [e1, e2, e4]
      · have e2 : ¬ j < min first.toNat v.length + (last - first).toNat := by omega
        have e3 : ¬ (first.toNat ≤ j ∧ j < last.toNat) := by omega
        have e5 : last.toNat + (j - (min first.toNat v.length + (last - first).toNat)) = j := by
          omega
        rw [if_neg e3]
        simp [e2, e5]

/-! ## The pattern generators paint the whole grid -/

/-- The row loop of `GenerateHorizontalStripesLayout` paints row `row` with
`(row / ppc) % num_classes`. -/
theorem horizontal_painted {width height num_classes ppc : Int} {map : List Int}
    (hw : 0 ≤ width) (hlen : (map.length : Int) = width * height)
    (hn : 1 ≤ num_classes) (hp : 1 ≤ ppc) :
    ∃ m', forLoop height (ImageLayout.horizontalRow width num_classes ppc) map = .ok m' ∧
      Painted width height (fun row _ => (row / ppc) % num_classes) m' := by
  have key := forLoop_inv height (ImageLayout.horizontalRow width num_classes ppc) map
    (fun k m => (m.length : Int) = width * height ∧
      ∀ r x : Int, 0 ≤ r → r < k → 0 ≤ x → x < width →
        m[(r * width + x).toNat]? = some ((r / ppc) % num_classes))
    ⟨hlen, by intro r x h1 h2; omega⟩
    (by
      intro i m hi ⟨hl, hc⟩
      have hi0 : (0 : Int) ≤ i := by omega
      have hq : 0 ≤ (i : Int) / ppc := Int.ediv_nonneg hi0 (by omega)
      have hf0 : 0 ≤ (i : Int) * width := Int.mul_nonneg hi0 hw
      have hf1 : ((i : Int) + 1) * width = (i : Int) * width + width := by ring
      have hf2 : ((i : Int) + 1) * width ≤ width * height := by
        have := Int.mul_le_mul_of_nonneg_right (show (i : Int) + 1 ≤ height by omega) hw
        have e : height * width = width * height := by ring
        omega
      obtain ⟨v', hv, hvl, hvg⟩ := vfill_ok (v := m) ((i : Int) / ppc % num_classes) hf0
        (show (i : Int) * width ≤ ((i : Int) + 1) * width by omega) (by omega)
      refine ⟨v', ?_, by omega, ?_⟩
      · simp [ImageLayout.horizontalRow, cdiv_ok hi0 (show 0 < ppc by omega),
          cmod_ok hq (show 0 < num_classes by omega), bind, Except.bind, hv]
      · intro r x hr0 hr hx0 hx
        rw [hvg]
        have hrx0 := cell_nonneg hr0 hx0 hw
        by_cases hri : r < i
        · have := cell_lt_row hri hx hw
          have e3 : ¬ (((i : Int) * width).toNat ≤ (r * width + x).toNat ∧
              (r * width + x).toNat < (((i : Int) + 1) * width).toNat) := by omega
          rw [if_neg e3]
          exact hc r x hr0 hri hx0 hx
        · have hre : r = i := by omega
          subst hre
          have e3 : (((i : Int) * width).toNat ≤ ((i : Int) * width + x).toNat ∧
              ((i : Int) * width + x).toNat < (((i : Int) + 1) * width).toNat) := by omega
          rw [if_pos e3])
  obtain ⟨m', hm, hl, hc⟩ := key
  refine ⟨m', hm, hl, ?_⟩
  intro row col h1 h2 h3 h4
  exact hc row col h1 (by omega) h3 h4

/-- A loop nest `for row { for col { map[row * width + col] = f row col } }` paints the
grid with `f`. -/
theorem rowMajor_painted {width height : Int} (f : Int → Int → Int)
    (body : Int → Int → List Int → Except Fault (List Int)) {map : List Int}
    (hw : 0 ≤ width) (hlen : (map.length : Int) = width * height)
    (hbody : ∀ (row col : Int) (m : List Int), 0 ≤ row → row < height → 0 ≤ col → col < width →
      body row col m = vset m (row * width + col) (f row col)) :
    ∃ m', forLoop height (fun row m => forLoop width (body row) m) map = .ok m' ∧
      Painted width height f m' := by
  have key := forLoop_inv height (fun row m => forLoop width (body row) m) map
    (fun k m => (m.length : Int) = width * height ∧
      ∀ r x : Int, 0 ≤ r → r < k → 0 ≤ x → x < width →
        m[(r * width + x).toNat]? = some (f r x))
    ⟨hlen, by intro r x h1 h2; omega⟩
    (by
      intro i m hi ⟨hl, hc⟩
      have hi0 : (0 : Int) ≤ i := by omega
      have inner := forLoop_inv width (body (i : Int)) m
        (fun j m' => (m'.length : Int) = width * height ∧
          (∀ r x : Int, 0 ≤ r → r < i → 0 ≤ x → x < width →
            m'[(r * width + x).toNat]? = some (f r x)) ∧
          ∀ x : Int, 0 ≤ x → x < j → m'[((i : Int) * width + x).toNat]? = some (f i x))
        ⟨hl, hc, by intro x h1 h2; omega⟩
        (by
          intro j m' hj ⟨hl', hc', hd'⟩
          have hj0 : (0 : Int) ≤ j := by omega
          have hidx0 := cell_nonneg hi0 hj0 hw
          have hidx := cell_lt hi hj hw
          refine ⟨m'.set ((i : Int) * width + (j : Int)).toNat (f i j), ?_, ?_, ?_, ?_⟩
          · rw [hbody _ _ _ hi0 hi hj0 hj]
            exact vset_ok _ hidx0 (by omega)
          · simp only [List.length_set]
            exact hl'
          · intro r x hr0 hr hx0 hx
            have := cell_lt_row hr hx hw
            have := cell_nonneg hr0 hx0 hw
            rw [List.getElem?_set_ne (by omega)]
            exact hc' r x hr0 hr hx0 hx
          · intro x hx0 hx
            by_cases hxj : x < j
            · have := cell_nonneg hi0 hx0 hw
              rw [List.getElem?_set_ne (by omega)]
              exact hd' x hx0 hxj
            · have hxe : x = j := by omega
              subst hxe
              rw [List.getElem?_set_self (by omega)])
      obtain ⟨m', hm, hl', hc', hd'⟩ := inner
      refine ⟨m', hm, hl', ?_⟩
      intro r x hr0 hr hx0 hx
      by_cases hri : r < i
      · exact hc' r x hr0 hri hx0 hx
      · have hre : r = i := by omega
        subst hre
        exact hd' x hx0 (by omega))
  obtain ⟨m', hm, hl, hc⟩ := key
  refine ⟨m', hm, hl, ?_⟩
  intro row col h1 h2 h3 h4
  exact hc row col h1 (by omega) h3 h4

/-- The loop nest of `GenerateVerticalStripesLayout` paints column `col` with
`(col / ppc) % num_classes`. -/
theorem vertical_painted {width height num_classes ppc : Int} {map : List Int}
    (hw : 0 ≤ width) (hlen : (map.length : Int) = width * height)
    (hn : 1 ≤ num_classes) (hp : 1 ≤ ppc) :
    ∃ m', forLoop width (ImageLayout.verticalCol width height num_classes ppc) map = .ok m' ∧
      Painted width height (fun _ col => (col / ppc) % num_classes) m' := by
  have key := forLoop_inv width (ImageLayout.verticalCol width height num_classes ppc) map
    (fun k m => (m.length : Int) = width * height ∧
      ∀ r x : Int, 0 ≤ r → r < height → 0 ≤ x → x < k →
        m[(r * width + x).toNat]? = some ((x / ppc) % num_classes))
    ⟨hlen, by intro r x h1 h2 h3 h4; omega⟩
    (by
      intro i m hi ⟨hl, hc⟩
      have hi0 : (0 : Int) ≤ i := by omega
      have hq : 0 ≤ (i : Int) / ppc := Int.ediv_nonneg hi0 (by omega)
      have inner := forLoop_inv height
        (fun row m => vset m (row * width + (i : Int)) ((i : Int) / ppc % num_classes)) m
        (fun j m' => (m'.length : Int) = width * height ∧
          (∀ r x : Int, 0 ≤ r → r < height → 0 ≤ x → x < i →
            m'[(r * width + x).toNat]? = some ((x / ppc) % num_classes)) ∧
          ∀ r : Int, 0 ≤ r → r < j →
            m'[(r * width + (i : Int)).toNat]? = some (((i : Int) / ppc) % num_classes))
        ⟨hl, hc, by intro x h1 h2; omega⟩
        (by
          intro j m' hj ⟨hl', hc', hd'⟩
          have hj0 : (0 : Int) ≤ j := by omega
          have hidx0 := cell_nonneg hj0 hi0 hw
          have hidx := cell_lt hj hi hw
          refine ⟨m'.set ((j : Int) * width + (i : Int)).toNat ((i : Int) / ppc % num_classes),
            vset_ok _ hidx0 (by omega), ?_, ?_, ?_⟩
          · simp only [List.length_set]
            exact hl'
          · intro r x hr0 hr hx0 hx
            have := cell_nonneg hr0 hx0 hw
            have hne : ((j : Int) * width + (i : Int)).toNat ≠ (r * width + x).toNat := by
              rcases lt_trichotomy r (j : Int) with h | h | h
              · have := cell_lt_row h (show x < width by omega) hw
                omega
              · subst h
                omega
              · have := cell_lt_row h hi hw
                omega
            rw [List.getElem?_set_ne hne]
            exact hc' r x hr0 hr hx0 hx
          · intro r hr0 hr
            by_cases hrj : r < j
            · have := cell_nonneg hr0 hi0 hw
              have := cell_lt_row hrj hi hw
              rw [List.getElem?_set_ne (by omega)]
              exact hd' r hr0 hrj
            · have hre : r = j := by omega
              subst hre
              rw [List.getElem?_set_self (by omega)])
      obtain ⟨m', hm, hl', hc', hd'⟩ := inner
      refine ⟨m', ?_, hl', ?_⟩
      · simp [ImageLayout.verticalCol, cdiv_ok hi0 (show 0 < ppc by omega),
          cmod_ok hq (show 0 < num_classes by omega), bind, Except.bind, hm]
      · intro r x hr0 hr hx0 hx
        by_cases hxi : x < i
        · exact hc' r x hr0 hr hx0 hxi
        · have hxe : x = i := by omega
          subst hxe
          exact hd' r hr0 (by omega))
  obtain ⟨m', hm, hl, hc⟩ := key
  refine ⟨m', hm, hl, ?_⟩
  intro row col h1 h2 h3 h4
  exact hc row col h1 h2 h3 (by omega)

/-- The loop nest of `GenerateGridLayout` paints cell (`row`, `col`) with
`((row / ppc) + (col / ppc)) % num_classes`. -/
theorem grid_painted {width height num_classes ppc : Int} {map : List Int}
    (hw : 0 ≤ width) (hlen : (map.length : Int) = width * height)
    (hn : 1 ≤ num_classes) (hp : 1 ≤ ppc) :
    ∃ m', forLoop height
        (fun row m => forLoop width (ImageLayout.gridCell width num_classes ppc row) m) map
          = .ok m' ∧
      Painted width height (fun row col => ((row / ppc) + (col / ppc)) % num_classes) m' := by
  apply rowMajor_painted _ _ hw hlen
  intro row col m hr0 _ hc0 _
  have h1 : 0 ≤ row / ppc := Int.ediv_nonneg hr0 (by omega)
  have h2 : 0 ≤ col / ppc := Int.ediv_nonneg hc0 (by omega)
  simp [ImageLayout.gridCell, cdiv_ok hr0 (show 0 < ppc by omega),
    cdiv_ok hc0 (show 0 < ppc by omega),
    cmod_ok (show 0 ≤ row / ppc + col / ppc by omega) (show 0 < num_classes by omega),
    bind, Except.bind]

theorem pixels_per_class_pos {dimension num_classes size_parameter : Int}
    (h : 0 < size_parameter) :
    ImageLayout.pixels_per_class dimension num_classes size_parameter = .ok size_parameter := by
  have : ¬ size_parameter ≤ 0 := by omega
  simp [ImageLayout.pixels_per_class, this, pure, Except.pure]

theorem pixels_per_class_default {dimension num_classes size_parameter : Int}
    (h : size_parameter ≤ 0) (hd : 0 ≤ dimension) (hn : 1 ≤ num_classes) :
    ImageLayout.pixels_per_class dimension num_classes size_parameter
      = .ok (min (dimension / num_classes) 25) := by
  simp [ImageLayout.pixels_per_class, h, cdiv_ok hd (show 0 < num_classes by omega), bind,
    Except.bind, pure, Except.pure, kDefaultMaxStripeWidth]

/-- The value of `pixels_per_class` in terms of the size parameter, when the number of
classes is positive. -/
theorem pixels_per_class_eq {dimension num_classes size_parameter : Int}
    (hd : 0 ≤ dimension) (hn : 1 ≤ num_classes) :
    ImageLayout.pixels_per_class dimension num_classes size_parameter
      = .ok (if size_parameter > 0 then size_parameter else min (dimension / num_classes) 25) := by
  by_cases h : size_parameter > 0
  · rw [if_pos h]
    exact pixels_per_class_pos h
  · rw [if_neg h]
    exact pixels_per_class_default (by omega) hd hn

theorem Painted.getClass {width height : Int} {f : Int → Int → Int} {m : List Int}
    {kind : LayoutType} {pn ps : Int} (hw : 0 ≤ width) (h : Painted width height f m)
    {x y : Int} (hx0 : 0 ≤ x) (hx : x < width) (hy0 : 0 ≤ y) (hy : y < height) :
    ImageLayout.GetClassAtPixel ⟨width, height, m, kind, pn, ps⟩ x y = .ok (f y x) := by
  unfold ImageLayout.GetClassAtPixel ImageLayout.GetMapIndex
  exact vget_ok (cell_nonneg hy0 hx0 hw) (h.2 y x hy0 hy hx0 hx)

/-- Under the size invariant and with a positive band, `GenerateHorizontalStripesLayout`
returns, and paints row `row` with `(row / band) % num_classes`. -/
theorem horizontal_spec (self : ImageLayout) (num_classes stripe_width : Int)
    (hw : 0 ≤ self.image_width_) (hh : 0 ≤ self.image_height_)
    (hsize : (self.spectral_class_map_.length : Int) = self.image_width_ * self.image_height_)
    (hn : 1 ≤ num_classes)
    (hband : 1 ≤ (if stripe_width > 0 then stripe_width
      else min (self.image_height_ / num_classes) 25)) :
    ∃ m', self.GenerateHorizontalStripesLayout num_classes stripe_width
        = .ok { self with
                spectral_class_map_ := m'
                previous_layout_ := .LAYOUT_TYPE_HORIZONTAL_STRIPES
                previous_num_classes_ := num_classes
                previous_size_parameter_ := stripe_width } ∧
      Painted self.image_width_ self.image_height_
        (fun row _ => (row / (if stripe_width > 0 then stripe_width
          else min (self.image_height_ / num_classes) 25)) % num_classes) m' := by
  obtain ⟨m', hm, hp⟩ := horizontal_painted hw hsize hn hband
  refine ⟨m', ?_, hp⟩
  simp [ImageLayout.GenerateHorizontalStripesLayout, pixels_per_class_eq hh hn, hm, bind,
    Except.bind, pure, Except.pure]

/-- Under the size invariant and with a positive band, `GenerateVerticalStripesLayout`
returns, and paints column `col` with `(col / band) % num_classes`. -/
theorem vertical_spec (self : ImageLayout) (num_classes stripe_width : Int)
    (hw : 0 ≤ self.image_width_)
    (hsize : (self.spectral_class_map_.length : Int) = self.image_width_ * self.image_height_)
    (hn : 1 ≤ num_classes)
    (hband : 1 ≤ (if stripe_width > 0 then stripe_width
      else min (self.image_width_ / num_classes) 25)) :
    ∃ m', self.GenerateVerticalStripesLayout num_classes stripe_width
        = .ok { self with
                spectral_class_map_ := m'
                previous_layout_ := .LAYOUT_TYPE_VERTICAL_STRIPES
                previous_num_classes_ := num_classes
                previous_size_parameter_ := stripe_width } ∧
      Painted self.image_width_ self.image_height_
        (fun _ col => (col / (if stripe_width > 0 then stripe_width
          else min (self.image_width_ / num_classes) 25)) % num_classes) m' := by
  obtain ⟨m', hm, hp⟩ := vertical_painted hw hsize hn hband
  refine ⟨m', ?_, hp⟩
  simp [ImageLayout.GenerateVerticalStripesLayout, pixels_per_class_eq hw hn, hm, bind,
    Except.bind, pure, Except.pure]

/-- Under the size invariant and with a positive tile, `GenerateGridLayout` returns, and
paints cell (`row`, `col`) with `((row / tile) + (col / tile)) % num_classes`. -/
theorem grid_spec (self : ImageLayout) (num_classes square_width : Int)
    (hw : 0 ≤ self.image_width_)
    (hsize : (self.spectral_class_map_.length : Int) = self.image_width_ * self.image_height_)
    (hn : 1 ≤ num_classes)
    (hband : 1 ≤ (if square_width > 0 then square_width
      else min (self.image_width_ / num_classes) 25)) :
    ∃ m', self.GenerateGridLayout num_classes square_width
        = .ok { self with
                spectral_class_map_ := m'
                previous_layout_ := .LAYOUT_TYPE_GRID
                previous_num_classes_ := num_classes
                previous_size_parameter_ := square_width } ∧
      Painted self.image_width_ self.image_height_
        (fun row col =>
          ((row / (if square_width > 0 then square_width
              else min (self.image_width_ / num_classes) 25)) +
            (col / (if square_width > 0 then square_width
              else min (self.image_width_ / num_classes) 25))) % num_classes) m' := by
  obtain ⟨m', hm, hp⟩ := grid_painted hw hsize hn hband
  refine ⟨m', ?_, hp⟩
  simp [ImageLayout.GenerateGridLayout, pixels_per_class_eq hw hn, hm, bind,
    Except.bind, pure, Except.pure]

theorem vresize_ok (v : List Int) {n : Int} (hn : 0 ≤ n) :
    ∃ v', vresize v n = .ok v' ∧ (v'.length : Int) = n := by
  refine ⟨v.take n.toNat ++ List.replicate (n.toNat - v.length) 0, by simp [vresize, hn], ?_⟩
  simp only [List.length_append, List.length_take, List.length_replicate]
  omega

/-- A `for` loop whose first iteration faults, faults. -/
theorem forLoop_first_error {σ : Type} {n : Int} {body : Int → σ → Except Fault σ} {init : σ}
    {e : Fault} (hn : 1 ≤ n) (h : body 0 init = .error e) : forLoop n body init = .error e := by
  unfold forLoop
  obtain ⟨k, hk⟩ : ∃ k, n.toNat = k + 1 := ⟨n.toNat - 1, by omega⟩
  rw [hk, List.range_succ_eq_map]
  simp only [List.foldlM, Nat.cast_zero]
  rw [h]
  rfl

theorem horizontal_record {self gen : ImageLayout} {num_classes stripe_width : Int}
    (h : self.GenerateHorizontalStripesLayout num_classes stripe_width = .ok gen) :
    gen.previous_layout_ = .LAYOUT_TYPE_HORIZONTAL_STRIPES ∧
      gen.previous_num_classes_ = num_classes ∧ gen.previous_size_parameter_ = stripe_width := by
  unfold ImageLayout.GenerateHorizontalStripesLayout at h
  cases h1 : ImageLayout.pixels_per_class self.image_height_ num_classes stripe_width with
  | error e => rw [h1] at h; cases h
  | ok ppc =>
    rw [h1] at h
    cases h2 : forLoop self.image_height_
        (ImageLayout.horizontalRow self.image_width_ num_classes ppc)
        self.spectral_class_map_ with
    | error e => simp [bind, Except.bind, h2] at h
    | ok m =>
      simp [bind, Except.bind, h2, pure, Except.pure] at h
      subst h
      exact ⟨rfl, rfl, rfl⟩

theorem vertical_record {self gen : ImageLayout} {num_classes stripe_width : Int}
    (h : self.GenerateVerticalStripesLayout num_classes stripe_width = .ok gen) :
    gen.previous_layout_ = .LAYOUT_TYPE_VERTICAL_STRIPES ∧
      gen.previous_num_classes_ = num_classes ∧ gen.previous_size_parameter_ = stripe_width := by
  unfold ImageLayout.GenerateVerticalStripesLayout at h
  cases h1 : ImageLayout.pixels_per_class self.image_width_ num_classes stripe_width with
  | error e => rw [h1] at h; cases h
  | ok ppc =>
    rw [h1] at h
    cases h2 : forLoop self.image_width_
        (ImageLayout.verticalCol self.image_width_ self.image_height_ num_classes ppc)
        self.spectral_class_map_ with
    | error e => simp [bind, Except.bind, h2] at h
    | ok m =>
      simp [bind, Except.bind, h2, pure, Except.pure] at h
      subst h
      exact ⟨rfl, rfl, rfl⟩

theorem grid_record {self gen : ImageLayout} {num_classes square_width : Int}
    (h : self.GenerateGridLayout num_classes square_width = .ok gen) :
    gen.previous_layout_ = .LAYOUT_TYPE_GRID ∧
      gen.previous_num_classes_ = num_classes ∧ gen.previous_size_parameter_ = square_width := by
  unfold ImageLayout.GenerateGridLayout at h
  cases h1 : ImageLayout.pixels_per_class self.image_width_ num_classes square_width with
  | error e => rw [h1] at h; cases h
  | ok ppc =>
    rw [h1] at h
    cases h2 : forLoop self.image_height_
        (fun row m =>
          forLoop self.image_width_ (ImageLayout.gridCell self.image_width_ num_classes ppc row) m)
        self.spectral_class_map_ with
    | error e => simp [bind, Except.bind, h2] at h
    | ok m =>
      simp [bind, Except.bind, h2, pure, Except.pure] at h
      subst h
      exact ⟨rfl, rfl, rfl⟩

/-! ## Claims about the pattern generators -/

/-- C1: on a grid with width >= 1 and height >= 1 whose class map has width*height entries
of any content, for num_classes >= 1 and a band (stripe_width when positive, else
min(height / num_classes, 25)) that is >= 1, `GenerateHorizontalStripesLayout` returns and
afterwards `GetClassAtPixel(x, y)` is `(y / band) % num_classes` at every in-range pixel. -/
theorem C1_horizontal_stripes_rows (self : ImageLayout) (num_classes stripe_width band : Int)
    (hw : 1 ≤ self.image_width_) (hh : 1 ≤ self.image_height_)
    (hsize : (self.spectral_class_map_.length : Int) = self.image_width_ * self.image_height_)
    (hn : 1 ≤ num_classes)
    (hband : band = if stripe_width > 0 then stripe_width
      else min (self.image_height_ / num_classes) 25)
    (hb : 1 ≤ band) :
    ∃ after, self.GenerateHorizontalStripesLayout num_classes stripe_width = .ok after ∧
      ∀ x y : Int, 0 ≤ x → x < self.image_width_ → 0 ≤ y → y < self.image_height_ →
        after.GetClassAtPixel x y = .ok ((y / band) % num_classes) := by
  subst hband
  obtain ⟨m', hm, hp⟩ := horizontal_spec self num_classes stripe_width (by omega) (by omega)
    hsize hn hb
  refine ⟨_, hm, ?_⟩
  intro x y hx0 hx hy0 hy
  exact Painted.getClass (by omega) hp hx0 hx hy0 hy

/-- The instance of C1 named in the claim: num_classes = 3, stripe_width = 2, height = 6 (on
a grid of width 2 that held class 7 everywhere). -/
theorem C1_horizontal_stripes_rows_witness :
    ∃ after, ImageLayout.GenerateHorizontalStripesLayout
        ⟨2, 6, List.replicate 12 7, .LAYOUT_TYPE_NONE, 0, 0⟩ 3 2 = .ok after ∧
      ∀ x y : Int, 0 ≤ x → x < 2 → 0 ≤ y → y < 6 →
        after.GetClassAtPixel x y = .ok ((y / 2) % 3) :=
  C1_horizontal_stripes_rows ⟨2, 6, List.replicate 12 7, .LAYOUT_TYPE_NONE, 0, 0⟩ 3 2 2
    (by decide) (by decide) (by decide) (by decide) (by decide) (by decide)

/-- C2: on a grid with width >= 1 and height >= 1 whose class map has width*height entries,
for num_classes >= 1: with a tile >= 1, `GenerateGridLayout` returns and the class at row r,
column c is `((r / tile) + (c / tile)) % num_classes`; with a size parameter <= 0 the tile
used is min(width / num_classes, 25) for the row term and the column term alike (when that
value is >= 1; when it is 0 the call faults with a division by zero). -/
theorem C2_grid_diagonal_bands (self : ImageLayout) (num_classes square_width : Int)
    (hw : 1 ≤ self.image_width_) (hh : 1 ≤ self.image_height_)
    (hsize : (self.spectral_class_map_.length : Int) = self.image_width_ * self.image_height_)
    (hn : 1 ≤ num_classes) :
    (1 ≤ square_width →
      ∃ after, self.GenerateGridLayout num_classes square_width = .ok after ∧
        ∀ r c : Int, 0 ≤ r → r < self.image_height_ → 0 ≤ c → c < self.image_width_ →
          after.GetClassAtPixel c r
            = .ok (((r / square_width) + (c / square_width)) % num_classes)) ∧
    (square_width ≤ 0 → 1 ≤ min (self.image_width_ / num_classes) 25 →
      ∃ after, self.GenerateGridLayout num_classes square_width = .ok after ∧
        ∀ r c : Int, 0 ≤ r → r < self.image_height_ → 0 ≤ c → c < self.image_width_ →
          after.GetClassAtPixel c r
            = .ok (((r / min (self.image_width_ / num_classes) 25) +
                (c / min (self.image_width_ / num_classes) 25)) % num_classes)) ∧
    (square_width ≤ 0 → min (self.image_width_ / num_classes) 25 < 1 →
      self.GenerateGridLayout num_classes square_width = .error .divByZero) := by
  refine ⟨?_, ?_, ?_⟩
  · intro hs
    have hpos : square_width > 0 := by omega
    obtain ⟨m', hm, hp⟩ := grid_spec self num_classes square_width (by omega) hsize hn
      (by rw [if_pos hpos]; exact hs)
    rw [if_pos hpos] at hp
    refine ⟨_, hm, ?_⟩
    intro r c hr0 hr hc0 hc
    exact Painted.getClass (by omega) hp hc0 hc hr0 hr
  · intro hs ht
    have hpos : ¬ square_width > 0 := by omega
    obtain ⟨m', hm, hp⟩ := grid_spec self num_classes square_width (by omega) hsize hn
      (by rw [if_neg hpos]; exact ht)
    rw [if_neg hpos] at hp
    refine ⟨_, hm, ?_⟩
    intro r c hr0 hr hc0 hc
    exact Painted.getClass (by omega) hp hc0 hc hr0 hr
  · intro hs ht
    have hq : 0 ≤ self.image_width_ / num_classes := Int.ediv_nonneg (by omega) (by omega)
    have hz : min (self.image_width_ / num_classes) 25 = 0 := by omega
    have hloop : forLoop self.image_height_
        (fun row m =>
          forLoop self.image_width_ (ImageLayout.gridCell self.image_width_ num_classes 0 row) m)
        self.spectral_class_map_ = .error .divByZero := by
      apply forLoop_first_error hh
      apply forLoop_first_error hw
      simp [ImageLayout.gridCell, cdiv, bind, Except.bind]
    simp [ImageLayout.GenerateGridLayout, pixels_per_class_default hs (show 0 ≤ self.image_width_
      by omega) hn, hz, hloop, bind, Except.bind]

/-- The instance of C2 named in the claim: num_classes = 2, tile = 1 on a 4 x 4 grid gives
the checkerboard `(r + c) % 2`. -/
theorem C2_grid_diagonal_bands_witness :
    ∃ after, ImageLayout.GenerateGridLayout
        ⟨4, 4, List.replicate 16 5, .LAYOUT_TYPE_NONE, 0, 0⟩ 2 1 = .ok after ∧
      ∀ r c : Int, 0 ≤ r → r < 4 → 0 ≤ c → c < 4 →
        after.GetClassAtPixel c r = .ok (((r / 1) + (c / 1)) % 2) :=
  (C2_grid_diagonal_bands ⟨4, 4, List.replicate 16 5, .LAYOUT_TYPE_NONE, 0, 0⟩ 2 1
    (by decide) (by decide) (by decide) (by decide)).1 (by decide)

theorem construct_ok {width height : Int} (hw : 0 ≤ width) (hh : 0 ≤ height) :
    ∃ m, ImageLayout.construct width height = .ok ⟨width, height, m, .LAYOUT_TYPE_NONE, 0, 0⟩ ∧
      (m.length : Int) = width * height := by
  obtain ⟨m, hm, hl⟩ := vresize_ok [] (Int.mul_nonneg hw hh)
  exact ⟨m, by simp [ImageLayout.construct, hm, bind, Except.bind, pure, Except.pure], hl⟩

/-- C7: for each of the three pattern generators G, every state `self`, every
num_classes >= 1, every size parameter and every new size width, height >= 0 at which the
effective band is >= 1: if G(num_classes, size_parameter) returned the state `gen`, then
`SetImageSize(width, height)` on `gen` returns, and its result (class map, dimensions and
generation record) is the result of G(num_classes, size_parameter) on a freshly constructed
`ImageLayout(width, height)`. -/
theorem C7_resize_regenerates_pattern (rnd : Nat → Nat) (fuel : Nat) (self gen : ImageLayout)
    (num_classes size_parameter width height : Int)
    (hn : 1 ≤ num_classes) (hw : 0 ≤ width) (hh : 0 ≤ height) :
    (self.GenerateHorizontalStripesLayout num_classes size_parameter = .ok gen →
      1 ≤ (if size_parameter > 0 then size_parameter else min (height / num_classes) 25) →
      ∃ after, gen.SetImageSize rnd fuel width height = .ok after ∧
        (ImageLayout.construct width height >>= fun fresh =>
          fresh.GenerateHorizontalStripesLayout num_classes size_parameter) = .ok after) ∧
    (self.GenerateVerticalStripesLayout num_classes size_parameter = .ok gen →
      1 ≤ (if size_parameter > 0 then size_parameter else min (width / num_classes) 25) →
      ∃ after, gen.SetImageSize rnd fuel width height = .ok after ∧
        (ImageLayout.construct width height >>= fun fresh =>
          fresh.GenerateVerticalStripesLayout num_classes size_parameter) = .ok after) ∧
    (self.GenerateGridLayout num_classes size_parameter = .ok gen →
      1 ≤ (if size_parameter > 0 then size_parameter else min (width / num_classes) 25) →
      ∃ after, gen.SetImageSize rnd fuel width height = .ok after ∧
        (ImageLayout.construct width height >>= fun fresh =>
          fresh.GenerateGridLayout num_classes size_parameter) = .ok after) := by
  obtain ⟨m0, hfresh, hl0⟩ := construct_ok hw hh
  obtain ⟨gw, gh, gm, kind, pn, ps⟩ := gen
  obtain ⟨m1, hres, hl1⟩ := vresize_ok gm (Int.mul_nonneg hw hh)
  refine ⟨?_, ?_, ?_⟩
  · intro hgen hband
    obtain ⟨h1, h2, h3⟩ := horizontal_record hgen
    simp only at h1 h2 h3
    subst h1 h2 h3
    obtain ⟨a, ha, hpa⟩ := horizontal_spec
      ⟨width, height, m1, .LAYOUT_TYPE_HORIZONTAL_STRIPES, pn, ps⟩ pn ps hw hh hl1 hn hband
    obtain ⟨b, hb, hpb⟩ := horizontal_spec
      ⟨width, height, m0, .LAYOUT_TYPE_NONE, 0, 0⟩ pn ps hw hh hl0 hn hband
    have hab : a = b := Painted.unique hw hpa hpb
    subst hab
    refine ⟨⟨width, height, a, .LAYOUT_TYPE_HORIZONTAL_STRIPES, pn, ps⟩, ?_, ?_⟩
    · simp only [ImageLayout.SetImageSize, hres, bind, Except.bind]
      exact ha
    · simp only [hfresh, bind, Except.bind]
      exact hb
  · intro hgen hband
    obtain ⟨h1, h2, h3⟩ := vertical_record hgen
    simp only at h1 h2 h3
    subst h1 h2 h3
    obtain ⟨a, ha, hpa⟩ := vertical_spec
      ⟨width, height, m1, .LAYOUT_TYPE_VERTICAL_STRIPES, pn, ps⟩ pn ps hw hl1 hn hband
    obtain ⟨b, hb, hpb⟩ := vertical_spec
      ⟨width, height, m0, .LAYOUT_TYPE_NONE, 0, 0⟩ pn ps hw hl0 hn hband
    have hab : a = b := Painted.unique hw hpa hpb
    subst hab
    refine ⟨⟨width, height, a, .LAYOUT_TYPE_VERTICAL_STRIPES, pn, ps⟩, ?_, ?_⟩
    · simp only [ImageLayout.SetImageSize, hres, bind, Except.bind]
      exact ha
    · simp only [hfresh, bind, Except.bind]
      exact hb
  · intro hgen hband
    obtain ⟨h1, h2, h3⟩ := grid_record hgen
    simp only at h1 h2 h3
    subst h1 h2 h3
    obtain ⟨a, ha, hpa⟩ := grid_spec
      ⟨width, height, m1, .LAYOUT_TYPE_GRID, pn, ps⟩ pn ps hw hl1 hn hband
    obtain ⟨b, hb, hpb⟩ := grid_spec
      ⟨width, height, m0, .LAYOUT_TYPE_NONE, 0, 0⟩ pn ps hw hl0 hn hband
    have hab : a = b := Painted.unique hw hpa hpb
    subst hab
    refine ⟨⟨width, height, a, .LAYOUT_TYPE_GRID, pn, ps⟩, ?_, ?_⟩
    · simp only [ImageLayout.SetImageSize, hres, bind, Except.bind]
      exact ha
    · simp only [hfresh, bind, Except.bind]
      exact hb

set_option maxRecDepth 20000

/-- The instance of C7 named in the claim: horizontal stripes (2 classes, band 5) generated
at 10 x 10 and resized to 10 x 20 are the stripes generated on a fresh 10 x 20 grid. -/
theorem C7_resize_regenerates_pattern_witness :
    ∃ after,
      ImageLayout.SetImageSize (fun _ => 0) 0
        ⟨10, 10, (List.range 100).map (fun i => ((i : Int) / 10 / 5) % 2),
          .LAYOUT_TYPE_HORIZONTAL_STRIPES, 2, 5⟩ 10 20 = .ok after ∧
      (ImageLayout.construct 10 20 >>= fun fresh =>
        fresh.GenerateHorizontalStripesLayout 2 5) = .ok after :=
  (C7_resize_regenerates_pattern (fun _ => 0) 0
    ⟨10, 10, List.replicate 100 0, .LAYOUT_TYPE_NONE, 0, 0⟩
    ⟨10, 10, (List.range 100).map (fun i => ((i : Int) / 10 / 5) % 2),
      .LAYOUT_TYPE_HORIZONTAL_STRIPES, 2, 5⟩ 2 5 10 20
    (by decide) (by decide) (by decide)).1 (by decide) (by decide)

/-- C8 (the code at the failing input): on a 1 x 1 grid with num_classes = 2 and size
parameter 0 the computed default band is min(1 / 2, 25) = 0, and each of the three pattern
generators faults with a division by zero. -/
theorem C8_default_band_zero_faults :
    (ImageLayout.construct 1 1 >>= fun L => L.GenerateHorizontalStripesLayout 2 0)
        = .error .divByZero ∧
      (ImageLayout.construct 1 1 >>= fun L => L.GenerateVerticalStripesLayout 2 0)
        = .error .divByZero ∧
      (ImageLayout.construct 1 1 >>= fun L => L.GenerateGridLayout 2 0)
        = .error .divByZero ∧
      ImageLayout.pixels_per_class 1 2 0 = .ok 0 := by
  decide

/-- C9 (the code at the failing input): on a 2 x 2 grid with num_classes = 2 and a raster
that has intensity 255 at column 1, row 0 and intensity 0 elsewhere, after
`GenerateLayoutFromImage` the pixel (x = 1, y = 0) has class 0, though the binned intensity
of the raster pixel at column 1, row 0 is 1; class 1 is at pixel (x = 0, y = 1). -/
theorem C9_image_quantizer_transposes :
    (ImageLayout.construct 2 2 >>= fun L =>
        L.GenerateLayoutFromImage 2 ⟨fun x y => if x = 1 ∧ y = 0 then 255 else 0⟩ >>= fun L =>
        L.GetClassAtPixel 1 0) = .ok 0 ∧
      ImageLayout.quantizedClass 2 (if (1 : Int) = 1 ∧ (0 : Int) = 0 then 255 else 0) = .ok 1 ∧
      (ImageLayout.construct 2 2 >>= fun L =>
        L.GenerateLayoutFromImage 2 ⟨fun x y => if x = 1 ∧ y = 0 then 255 else 0⟩ >>= fun L =>
        L.GetClassAtPixel 0 1) = .ok 1 := by
  decide

/-- C10: for num_classes in [1, 256], the quantizer formula `intensity / (256 / num_classes)`
stays in [0, num_classes) for every intensity in [0, 255] exactly when 256 % num_classes = 0;
otherwise intensity 255 gives a class >= num_classes (num_classes itself for 3 classes).
With 4 classes intensity 0 gives class 0 and intensity 255 gives class 3. -/
theorem C10_quantizer_range (num_classes : Int) (h1 : 1 ≤ num_classes)
    (h256 : num_classes ≤ 256) :
    ((∀ intensity : Int, 0 ≤ intensity → intensity ≤ 255 →
        ∃ c, ImageLayout.quantizedClass num_classes intensity = .ok c ∧ 0 ≤ c ∧ c < num_classes)
      ↔ 256 % num_classes = 0) ∧
    (256 % num_classes ≠ 0 →
      ∃ c, ImageLayout.quantizedClass num_classes 255 = .ok c ∧ num_classes ≤ c) ∧
    ImageLayout.quantizedClass 3 255 = .ok 3 ∧
    ImageLayout.quantizedClass 4 0 = .ok 0 ∧
    ImageLayout.quantizedClass 4 255 = .ok 3 := by
  have hq : 1 ≤ 256 / num_classes := by
    rw [Int.le_ediv_iff_mul_le (by omega)]
    omega
  have hdm := Int.ediv_add_emod 256 num_classes
  have hm0 := Int.emod_nonneg 256 (show num_classes ≠ 0 by omega)
  have hmul : num_classes * (256 / num_classes) = 256 / num_classes * num_classes := by ring
  have hval : ∀ g : Int, 0 ≤ g →
      ImageLayout.quantizedClass num_classes g = .ok (g / (256 / num_classes)) := by
    intro g hg
    simp [ImageLayout.quantizedClass, cdiv_ok (show (0 : Int) ≤ 256 by omega)
      (show 0 < num_classes by omega), cdiv_ok hg (show 0 < 256 / num_classes by omega), bind,
      Except.bind]
  have hbig : 256 % num_classes ≠ 0 → num_classes ≤ 255 / (256 / num_classes) := by
    intro hne
    rw [Int.le_ediv_iff_mul_le (by omega)]
    omega
  refine ⟨⟨?_, ?_⟩, ?_, by decide, by decide, by decide⟩
  · intro h
    by_contra hne
    obtain ⟨c, hc, _, hlt⟩ := h 255 (by omega) (by omega)
    rw [hval 255 (by omega)] at hc
    cases hc
    have := hbig hne
    omega
  · intro hz g hg0 hg
    refine ⟨_, hval g hg0, Int.ediv_nonneg hg0 (by omega), ?_⟩
    apply Int.ediv_lt_of_lt_mul (by omega)
    omega
  · intro hne
    exact ⟨_, hval 255 (by omega), hbig hne⟩

/-- An instance of C10: 2 classes. -/
theorem C10_quantizer_range_witness :
    ((∀ intensity : Int, 0 ≤ intensity → intensity ≤ 255 →
        ∃ c, ImageLayout.quantizedClass 2 intensity = .ok c ∧ 0 ≤ c ∧ c < 2)
      ↔ 256 % (2 : Int) = 0) :=
  (C10_quantizer_range 2 (by decide) (by decide)).1

/-! ## The random layout: the seed search and the neighbour candidates -/

theorem cell_div {width row col : Int} (hc0 : 0 ≤ col) (hc : col < width) :
    (row * width + col) / width = row := by
  have hw : width ≠ 0 := by omega
  rw [Int.add_comm, Int.add_mul_ediv_right _ _ hw, Int.ediv_eq_zero_of_lt hc0 hc]
  omega

theorem cell_mod {width row col : Int} (hc0 : 0 ≤ col) (hc : col < width) :
    (row * width + col) % width = col := by
  rw [Int.add_comm, Int.add_mul_emod_self, Int.emod_eq_of_lt hc0 hc]

/-- The seed search returns an unfilled cell when one lies within `fuel` steps of the
wrapping forward scan from `start`. -/
theorem seedScan_finds (filled : List Bool) (fuel : Nat) :
    ∀ start : Int, 0 ≤ start → start < filled.length →
      (∃ j : Int, 0 ≤ j ∧ j < filled.length ∧ filled[j.toNat]? = some false ∧
        ((start ≤ j ∧ j - start < fuel) ∨ (j < start ∧ filled.length - start + j < fuel))) →
      ∃ i, ImageLayout.seedScan filled fuel start = .ok i ∧ 0 ≤ i ∧ i < filled.length ∧
        filled[i.toNat]? = some false := by
  induction fuel with
  | zero =>
    intro start _ _ ⟨j, _, _, _, h⟩
    omega
  | succ fuel ih =>
    intro start h0 h1 ⟨j, hj0, hj1, hjf, hd⟩
    have hlt : start.toNat < filled.length := by omega
    have hget : filled[start.toNat]? = some filled[start.toNat] := List.getElem?_eq_getElem hlt
    cases hb : filled[start.toNat] with
    | false =>
      rw [hb] at hget
      refine ⟨start, ?_, h0, h1, hget⟩
      simp [ImageLayout.seedScan, vget_ok h0 hget, bind, Except.bind, pure, Except.pure]
    | true =>
      rw [hb] at hget
      have hne : j ≠ start := by
        intro e
        subst e
        rw [hget] at hjf
        cases hjf
      by_cases hwrap : start + 1 ≥ filled.length
      · obtain ⟨i, hi, hrest⟩ := ih 0 (by omega) (by omega)
          ⟨j, hj0, hj1, hjf, by omega⟩
        refine ⟨i, ?_, hrest⟩
        simp [ImageLayout.seedScan, vget_ok h0 hget, bind, Except.bind, hwrap]
        exact hi
      · obtain ⟨i, hi, hrest⟩ := ih (start + 1) (by omega) (by omega)
          ⟨j, hj0, hj1, hjf, by omega⟩
        refine ⟨i, ?_, hrest⟩
        simp [ImageLayout.seedScan, vget_ok h0 hget, bind, Except.bind, hwrap]
        exact hi

/-- The candidates collected around an in-range cell are unfilled cells of the grid next
to it. -/
theorem neighborCandidates_spec {width height : Int} {filled : List Bool} (er : Int)
    {ec : Int} (hw : 1 ≤ width) (hsize : (filled.length : Int) = width * height)
    (hc0 : 0 ≤ ec) (hc : ec < width) :
    ∀ offs : List (Int × Int), (∀ o ∈ offs, o ∈ kCoordinateNeighborOffsets) →
      ∃ cands, ImageLayout.neighborCandidates width height filled er ec offs = .ok cands ∧
        ∀ c ∈ cands, 0 ≤ c ∧ c < width * height ∧ filled[c.toNat]? = some false ∧
          Adjacent4 width (er * width + ec) c := by
  intro offs
  induction offs with
  | nil =>
    intro _
    exact ⟨[], rfl, by simp⟩
  | cons o rest ih =>
    intro hmem
    obtain ⟨cands, hcands, hprop⟩ := ih (fun o ho => hmem o (List.mem_cons_of_mem _ ho))
    have ho : (o.1 = 0 ∧ (o.2 = -1 ∨ o.2 = 1)) ∨ (o.2 = 0 ∧ (o.1 = -1 ∨ o.1 = 1)) := by
      have := hmem o (List.mem_cons_self _ _)
      simp only [kCoordinateNeighborOffsets, List.mem_cons, List.mem_singleton,
        List.not_mem_nil, or_false] at this
      rcases this with h | h | h | h <;> rw [h] <;> simp
    unfold ImageLayout.neighborCandidates
    by_cases hrow : er + o.1 < 0 ∨ er + o.1 ≥ height
    · simp only [hrow, if_true]
      exact ⟨cands, hcands, hprop⟩
    · by_cases hcol : ec + o.2 < 0 ∨ ec + o.2 ≥ width
      · simp only [hrow, hcol, if_true, if_false]
        exact ⟨cands, hcands, hprop⟩
      · simp only [hrow, hcol, if_false]
        have hr0 : 0 ≤ er + o.1 := by omega
        have hr1 : er + o.1 < height := by omega
        have hq0 : 0 ≤ ec + o.2 := by omega
        have hq1 : ec + o.2 < width := by omega
        have hidx0 := cell_nonneg hr0 hq0 (show 0 ≤ width by omega)
        have hidx := cell_lt hr1 hq1 (show 0 ≤ width by omega)
        have hlt : ((er + o.1) * width + (ec + o.2)).toNat < filled.length := by omega
        have hget := List.getElem?_eq_getElem hlt
        rw [vget_ok hidx0 hget, hcands]
        cases hb : filled[((er + o.1) * width + (ec + o.2)).toNat] with
        | true =>
          refine ⟨cands, by simp [bind, Except.bind, pure, Except.pure], hprop⟩
        | false =>
          rw [hb] at hget
          refine ⟨((er + o.1) * width + (ec + o.2)) :: cands,
            by simp [bind, Except.bind, pure, Except.pure], ?_⟩
          intro c hcm
          rcases List.mem_cons.1 hcm with h | h
          · subst h
            refine ⟨hidx0, hidx, hget, ?_⟩
            unfold Adjacent4
            rw [cell_div hc0 hc, cell_mod hc0 hc, cell_div hq0 hq1, cell_mod hq0 hq1]
            omega
          · exact hprop c h

/-! ## The random layout: filling one cell -/

theorem count_false_set {filled : List Bool} {k : Nat} (h : filled[k]? = some false) :
    ((filled.set k true).count false : Int) = (filled.count false : Int) - 1 := by
  obtain ⟨hk, hv⟩ := List.getElem?_eq_some_iff.1 h
  have hpos : 0 < filled.count false := List.count_pos_iff.2 (hv ▸ List.getElem_mem hk)
  rw [List.count_set _ _ _ _ hk, hv]
  simp only [beq_self_eq_true, if_true, Bool.true_eq_false, Bool.false_eq_true, if_false,
    beq_iff_eq, Nat.add_zero]
  omega

/-- Writing class `cls` to an unfilled cell `c` of the grid, marking it filled, counting it
off and recording the write keeps the invariants. -/
theorem fill_inv {width height : Int} (num_classes rbs : Int)
    {s : ImageLayout.RandomState} (s' : ImageLayout.RandomState)
    {c cls : Int} (hinv : RandomInv width height s)
    (hc0 : 0 ≤ c) (hc : c < width * height)
    (hunf : s.filled_in_pixels[c.toNat]? = some false)
    (hmap : s'.spectral_class_map_ = s.spectral_class_map_.set c.toNat cls)
    (hfil : s'.filled_in_pixels = s.filled_in_pixels.set c.toNat true)
    (hrem : s'.num_pixels_remaining = s.num_pixels_remaining - 1)
    (hedge : ∀ e ∈ s'.edge_pixels, 0 ≤ e ∧ e < width * height)
    (hblob : s'.blob = s.blob ++ [(c, cls)])
    (hblobs : s'.blobs = s.blobs) :
    RandomInv width height s' ∧
      (0 ≤ cls → cls < num_classes → LogInv width num_classes rbs s →
        LogInv width num_classes rbs s') := by
  have hwr : s'.written = s.written ++ [(c, cls)] := by
    simp [ImageLayout.RandomState.written, hblob, hblobs]
  have hcm : c.toNat < s.spectral_class_map_.length := by
    have := hinv.map_size
    omega
  have hcf : c.toNat < s.filled_in_pixels.length := by
    have := hinv.filled_size
    omega
  refine ⟨⟨hinv.width_pos, hinv.height_pos, ?_, ?_, ?_, hedge⟩, ?_⟩
  · rw [hmap, List.length_set]
    exact hinv.map_size
  · rw [hfil, List.length_set]
    exact hinv.filled_size
  · rw [hrem, hfil, count_false_set hunf, hinv.remaining_eq]
  · intro hcls0 hcls hlog
    have hnotin : c ∉ s.written.map Prod.fst := by
      intro hin
      have := ((hlog.filled_iff c).1 hin).2
      rw [hunf] at this
      cases this
    refine ⟨?_, ?_, ?_, ?_, ?_, ?_, ?_⟩
    · rw [hwr, List.map_append, List.nodup_append]
      refine ⟨hlog.nodup, by simp, ?_⟩
      intro a ha hb
      simp only [List.map_cons, List.map_nil, List.mem_singleton] at hb
      exact hnotin (hb ▸ ha)
    · intro i
      rw [hwr, List.map_append, List.mem_append, hfil, List.getElem?_set]
      simp only [List.map_cons, List.map_nil, List.mem_singleton]
      by_cases hic : i = c
      · subst hic
        simp [hcf, hc0]
      · constructor
        · rintro (h | h)
          · obtain ⟨hi0, hif⟩ := (hlog.filled_iff i).1 h
            refine ⟨hi0, ?_⟩
            rw [if_neg (by omega)]
            exact hif
          · exact absurd h hic
        · rintro ⟨hi0, hif⟩
          rw [if_neg (by omega)] at hif
          exact Or.inl ((hlog.filled_iff i).2 ⟨hi0, hif⟩)
    · intro p hp
      rw [hwr, List.mem_append] at hp
      rw [hmap]
      rcases hp with hp | hp
      · have hp1 : p.1 ∈ s.written.map Prod.fst := List.mem_map_of_mem _ hp
        have hp0 := ((hlog.filled_iff p.1).1 hp1).1
        have hne : p.1 ≠ c := fun e => hnotin (e ▸ hp1)
        rw [List.getElem?_set_ne (by omega)]
        exact hlog.values p hp
      · simp only [List.mem_singleton] at hp
        subst hp
        exact List.getElem?_set_self hcm
    · intro p hp
      rw [hwr, List.mem_append] at hp
      rcases hp with hp | hp
      · exact hlog.classes p hp
      · simp only [List.mem_singleton] at hp
        subst hp
        exact ⟨hcls0, hcls⟩
    · rw [hblobs]
      exact hlog.blobs_grown
    · rw [hblobs]
      exact hlog.blobs_class
    · rw [hblobs]
      exact hlog.blobs_size

/-! ## The random layout: the growth loop -/

theorem vget_of_lt {α : Type} {v : List α} {i : Int} (h0 : 0 ≤ i) (h : i < v.length) :
    ∃ a, vget v i = .ok a ∧ v[i.toNat]? = some a ∧ a ∈ v := by
  have hlt : i.toNat < v.length := by omega
  exact ⟨v[i.toNat], vget_ok h0 (List.getElem?_eq_getElem hlt), List.getElem?_eq_getElem hlt,
    List.getElem_mem hlt⟩

/-- One iteration of the growth loop (past the break check) returns and keeps the
invariants; it either leaves the count and the blob alone (an edge pixel was erased) or fills
one more cell. -/
theorem growStep_spec (rnd : Nat → Nat) {width height : Int} (num_classes rbs cls : Int)
    {s : ImageLayout.RandomState} (hinv : RandomInv width height s)
    (hedge : s.edge_pixels ≠ []) :
    ∃ s', ImageLayout.growStep rnd width height cls s = .ok s' ∧ RandomInv width height s' ∧
      s'.blobs = s.blobs ∧
      ((s'.num_pixels_remaining = s.num_pixels_remaining ∧ s'.blob = s.blob) ∨
        (s'.num_pixels_remaining = s.num_pixels_remaining - 1 ∧
          s'.blob.length = s.blob.length + 1)) ∧
      (0 ≤ cls → cls < num_classes → LogInv width num_classes rbs s → BlobInv width cls s →
        LogInv width num_classes rbs s' ∧ BlobInv width cls s') := by
  have hw := hinv.width_pos
  have hlen : 0 < s.edge_pixels.length := List.length_pos.2 hedge
  have hei0 : 0 ≤ (rnd s.draws : Int) % s.edge_pixels.length :=
    Int.emod_nonneg _ (by omega)
  have hei1 : (rnd s.draws : Int) % s.edge_pixels.length < s.edge_pixels.length :=
    Int.emod_lt_of_pos _ (by omega)
  have h1 := cmod_ok (show (0 : Int) ≤ rnd s.draws by omega)
    (show (0 : Int) < s.edge_pixels.length by omega)
  obtain ⟨x, h2, _, hxmem⟩ := vget_of_lt hei0 hei1
  obtain ⟨hx0, hx1⟩ := hinv.edge_range x hxmem
  have h3 := cdiv_ok hx0 (show 0 < width by omega)
  have h4 := cmod_ok hx0 (show 0 < width by omega)
  have hc0 : 0 ≤ x % width := Int.emod_nonneg _ (by omega)
  have hc1 : x % width < width := Int.emod_lt_of_pos _ (by omega)
  obtain ⟨cands, h5, hcands⟩ := neighborCandidates_spec (x / width) hw hinv.filled_size
    hc0 hc1 kCoordinateNeighborOffsets (fun o ho => ho)
  have hxeq : x / width * width + x % width = x := by
    have := Int.ediv_add_emod x width
    have e : x / width * width = width * (x / width) := by ring
    omega
  rw [hxeq] at hcands
  by_cases hzero : cands.length = 0
  · refine ⟨{ s with
        edge_pixels := s.edge_pixels.eraseIdx
          ((rnd s.draws : Int) % s.edge_pixels.length).toNat
        draws := s.draws + 1 }, ?_, ?_, rfl, Or.inl ⟨rfl, rfl⟩, ?_⟩
    · simp only [ImageLayout.growStep, h1, h2, h3, h4, h5, bind, Except.bind, hzero, if_true,
        pure, Except.pure]
    · exact ⟨hinv.width_pos, hinv.height_pos, hinv.map_size, hinv.filled_size,
        hinv.remaining_eq, fun e he => hinv.edge_range e (List.mem_of_mem_eraseIdx he)⟩
    · intro _ _ hlog hblob
      exact ⟨⟨hlog.nodup, hlog.filled_iff, hlog.values, hlog.classes, hlog.blobs_grown,
        hlog.blobs_class, hlog.blobs_size⟩,
        ⟨hblob.blob_grown, hblob.blob_class,
          fun e he => hblob.edge_sub e (List.mem_of_mem_eraseIdx he)⟩⟩
  · have hcl : 0 < cands.length := by omega
    have hp0 : 0 ≤ (rnd (s.draws + 1) : Int) % cands.length := Int.emod_nonneg _ (by omega)
    have hp1 : (rnd (s.draws + 1) : Int) % cands.length < cands.length :=
      Int.emod_lt_of_pos _ (by omega)
    have h6 := cmod_ok (show (0 : Int) ≤ rnd (s.draws + 1) by omega)
      (show (0 : Int) < cands.length by omega)
    obtain ⟨c, h7, _, hcmem⟩ := vget_of_lt hp0 hp1
    obtain ⟨hcell0, hcell1, hunf, hadj⟩ := hcands c hcmem
    have h8 := vset_ok (v := s.spectral_class_map_) cls hcell0
      (by have := hinv.map_size; omega)
    have h9 := vset_ok (v := s.filled_in_pixels) true hcell0
      (by have := hinv.filled_size; omega)
    have hfill := fill_inv num_classes rbs
      { s with
        spectral_class_map_ := s.spectral_class_map_.set c.toNat cls
        filled_in_pixels := s.filled_in_pixels.set c.toNat true
        edge_pixels := s.edge_pixels ++ [c]
        num_pixels_remaining := s.num_pixels_remaining - 1
        draws := s.draws + 2
        blob := s.blob ++ [(c, cls)] }
      hinv hcell0 hcell1 hunf rfl rfl rfl
      (by
        intro e he
        rcases List.mem_append.1 he with h | h
        · exact hinv.edge_range e h
        · simp only [List.mem_singleton] at h
          subst h
          exact ⟨hcell0, hcell1⟩)
      rfl rfl
    refine ⟨_, ?_, hfill.1, rfl, Or.inr ⟨rfl, by simp⟩, ?_⟩
    · simp only [ImageLayout.growStep, h1, h2, h3, h4, h5, h6, h7, h8, h9, bind, Except.bind,
        hzero, if_false, pure, Except.pure]
    · intro hcls0 hcls hlog hblob
      refine ⟨hfill.2 hcls0 hcls hlog, ?_, ?_, ?_⟩
      · show Grown width ((s.blob ++ [(c, cls)]).map Prod.fst)
        rw [List.map_append]
        exact Grown.grow hblob.blob_grown (hblob.edge_sub x hxmem) hadj
      · intro p hp
        rcases List.mem_append.1 hp with h | h
        · exact hblob.blob_class p h
        · simp only [List.mem_singleton] at h
          subst h
          rfl
      · intro e he
        show e ∈ (s.blob ++ [(c, cls)]).map Prod.fst
        rw [List.map_append, List.mem_append]
        rcases List.mem_append.1 he with h | h
        · exact Or.inl (hblob.edge_sub e h)
        · exact Or.inr (by simpa using h)

/-- The growth loop returns for every number of iterations and keeps the invariants; it
adds at most one cell per iteration to the blob. -/
theorem growLoop_spec (rnd : Nat → Nat) {width height : Int} (num_classes rbs cls : Int)
    (k : Nat) :
    ∀ s : ImageLayout.RandomState, RandomInv width height s →
      ∃ s', ImageLayout.growLoop rnd width height cls k s = .ok s' ∧
        RandomInv width height s' ∧ s'.blobs = s.blobs ∧
        s'.num_pixels_remaining ≤ s.num_pixels_remaining ∧
        s'.blob.length ≤ s.blob.length + k ∧
        (0 ≤ cls → cls < num_classes → LogInv width num_classes rbs s → BlobInv width cls s →
          LogInv width num_classes rbs s' ∧ BlobInv width cls s') := by
  induction k with
  | zero =>
    intro s hinv
    exact ⟨s, rfl, hinv, rfl, le_refl _, by omega, fun _ _ h1 h2 => ⟨h1, h2⟩⟩
  | succ k ih =>
    intro s hinv
    by_cases hbreak : s.num_pixels_remaining ≤ 0 ∨ s.edge_pixels.isEmpty
    · refine ⟨s, ?_, hinv, rfl, le_refl _, by omega, fun _ _ h1 h2 => ⟨h1, h2⟩⟩
      simp only [ImageLayout.growLoop, hbreak, if_true, pure, Except.pure]
    · have hedge : s.edge_pixels ≠ [] := by
        intro h
        apply hbreak
        right
        simp [h]
      obtain ⟨s1, hs1, hinv1, hb1, hstep, hlog1⟩ :=
        growStep_spec rnd num_classes rbs cls hinv hedge
      obtain ⟨s2, hs2, hinv2, hb2, hrem2, hlen2, hlog2⟩ := ih s1 hinv1
      refine ⟨s2, ?_, hinv2, hb2.trans hb1, ?_, ?_, ?_⟩
      · simp only [ImageLayout.growLoop, hbreak, if_false, hs1, bind, Except.bind]
        exact hs2
      · rcases hstep with h | h <;> omega
      · rcases hstep with h | h
        · rw [h.2] at hlen2
          omega
        · omega
      · intro hc0 hc hl hbl
        obtain ⟨hl1, hbl1⟩ := hlog1 hc0 hc hl hbl
        exact hlog2 hc0 hc hl1 hbl1

/-! ## The random layout: the outer loop -/

theorem exists_unfilled (filled : List Bool) (h : 0 < filled.count false) :
    ∃ j : Int, 0 ≤ j ∧ j < filled.length ∧ filled[j.toNat]? = some false := by
  obtain ⟨n, hn⟩ := List.mem_iff_getElem?.1 (List.count_pos_iff.1 h)
  obtain ⟨hlt, _⟩ := List.getElem?_eq_some_iff.1 hn
  exact ⟨(n : Int), by omega, by omega, by simpa using hn⟩

/-- One iteration of the outer loop, entered with `num_pixels_remaining > 0`, returns
(the seed search included, given fuel for one pass over the mask), keeps the invariants,
decreases `num_pixels_remaining` and completes one blob. -/
theorem blobIteration_spec (rnd : Nat → Nat) (fuel : Nat) {width height : Int}
    (num_classes rbs : Int) {s : ImageLayout.RandomState} (hinv : RandomInv width height s)
    (hrem : 0 < s.num_pixels_remaining) (hn : 1 ≤ num_classes)
    (hfuel : width * height ≤ fuel) :
    ∃ s', ImageLayout.blobIteration rnd fuel width height num_classes rbs s = .ok s' ∧
      RandomInv width height s' ∧ s'.num_pixels_remaining < s.num_pixels_remaining ∧
      s'.blobs.length = s.blobs.length + 1 ∧ s'.blob = [] ∧
      (s.blob = [] → LogInv width num_classes rbs s → LogInv width num_classes rbs s') := by
  have hcls0 : 0 ≤ (rnd s.draws : Int) % num_classes := Int.emod_nonneg _ (by omega)
  have hcls1 : (rnd s.draws : Int) % num_classes < num_classes :=
    Int.emod_lt_of_pos _ (by omega)
  have h1 := cmod_ok (show (0 : Int) ≤ rnd s.draws by omega) (show 0 < num_classes by omega)
  have h2 := cmod_ok (show (0 : Int) ≤ rnd (s.draws + 1) by omega) hrem
  have hst0 : 0 ≤ (rnd (s.draws + 1) : Int) % s.num_pixels_remaining :=
    Int.emod_nonneg _ (by omega)
  have hst1 : (rnd (s.draws + 1) : Int) % s.num_pixels_remaining < s.num_pixels_remaining :=
    Int.emod_lt_of_pos _ hrem
  have hcount := hinv.remaining_eq
  have hcl : s.filled_in_pixels.count false ≤ s.filled_in_pixels.length := List.count_le_length _ _
  have hfs := hinv.filled_size
  obtain ⟨j, hj0, hj1, hjf⟩ := exists_unfilled s.filled_in_pixels (by omega)
  obtain ⟨i, h3, hi0, hi1, hif⟩ := seedScan_finds s.filled_in_pixels fuel
    ((rnd (s.draws + 1) : Int) % s.num_pixels_remaining) hst0 (by omega)
    ⟨j, hj0, hj1, hjf, by omega⟩
  have h4 := vset_ok (v := s.spectral_class_map_) ((rnd s.draws : Int) % num_classes) hi0
    (by have := hinv.map_size; omega)
  have h5 := vset_ok (v := s.filled_in_pixels) true hi0 (by omega)
  have hinv0 : RandomInv width height { s with blob := [] } :=
    ⟨hinv.width_pos, hinv.height_pos, hinv.map_size, hinv.filled_size, hinv.remaining_eq,
      hinv.edge_range⟩
  have hfill := fill_inv num_classes rbs
    { s with
      spectral_class_map_ := s.spectral_class_map_.set i.toNat ((rnd s.draws : Int) % num_classes)
      num_pixels_remaining := s.num_pixels_remaining - 1
      filled_in_pixels := s.filled_in_pixels.set i.toNat true
      edge_pixels := [i]
      draws := s.draws + 2
      blob := [(i, (rnd s.draws : Int) % num_classes)] }
    hinv0 hi0 (by omega) hif rfl rfl rfl
    (by
      intro e he
      simp only [List.mem_singleton] at he
      subst he
      exact ⟨hi0, by omega⟩)
    rfl rfl
  obtain ⟨s2, hs2, hinv2, hb2, hrem2, hlen2, hlog2⟩ :=
    growLoop_spec rnd num_classes rbs ((rnd s.draws : Int) % num_classes) (rbs - 1).toNat _
      hfill.1
  refine ⟨{ s2 with edge_pixels := [], blob := [], blobs := s2.blobs ++ [s2.blob] }, ?_, ?_, ?_,
    ?_, rfl, ?_⟩
  · simp only [ImageLayout.blobIteration, h1, h2, h3, h4, h5, hs2, bind, Except.bind, pure,
      Except.pure]
  · exact ⟨hinv2.width_pos, hinv2.height_pos, hinv2.map_size, hinv2.filled_size,
      hinv2.remaining_eq, by simp⟩
  · simp only at hrem2 ⊢
    omega
  · simp only [List.length_append, List.length_singleton, hb2]
  · intro hnil hlog
    have hlog0 : LogInv width num_classes rbs { s with blob := [] } := by
      have hw : ImageLayout.RandomState.written { s with blob := [] } = s.written := by
        simp [ImageLayout.RandomState.written, hnil]
      exact ⟨hw ▸ hlog.nodup, hw ▸ hlog.filled_iff, hw ▸ hlog.values, hw ▸ hlog.classes,
        hlog.blobs_grown, hlog.blobs_class, hlog.blobs_size⟩
    obtain ⟨hl2, hbl2⟩ := hlog2 hcls0 hcls1 (hfill.2 hcls0 hcls1 hlog0)
      ⟨Grown.seed i, by simp, by simp⟩
    have hw2 : ImageLayout.RandomState.written
        { s2 with edge_pixels := [], blob := [], blobs := s2.blobs ++ [s2.blob] }
          = s2.written := by
      simp [ImageLayout.RandomState.written]
    refine ⟨hw2 ▸ hl2.nodup, hw2 ▸ hl2.filled_iff, hw2 ▸ hl2.values, hw2 ▸ hl2.classes, ?_, ?_,
      ?_⟩
    · intro b hb
      rcases List.mem_append.1 hb with h | h
      · exact hl2.blobs_grown b h
      · simp only [List.mem_singleton] at h
        subst h
        exact hbl2.blob_grown
    · intro b hb
      rcases List.mem_append.1 hb with h | h
      · exact hl2.blobs_class b h
      · simp only [List.mem_singleton] at h
        subst h
        exact ⟨_, hbl2.blob_class⟩
    · intro b hb
      rcases List.mem_append.1 hb with h | h
      · exact hl2.blobs_size b h
      · simp only [List.mem_singleton] at h
        subst h
        simp only [List.length_singleton] at hlen2
        omega

/-- The outer loop returns when it is given at least as many iterations as there are
unfilled cells; it ends with every cell filled and has completed at most one blob per
iteration. -/
theorem blobLoop_spec (rnd : Nat → Nat) (fuel : Nat) {width height : Int}
    (num_classes rbs : Int) (hn : 1 ≤ num_classes) (hfuel : width * height ≤ fuel) (k : Nat) :
    ∀ s : ImageLayout.RandomState, RandomInv width height s → s.num_pixels_remaining ≤ k →
      ∃ s', ImageLayout.blobLoop rnd fuel width height num_classes rbs k s = .ok s' ∧
        RandomInv width height s' ∧ s'.num_pixels_remaining = 0 ∧
        (s'.blobs.length : Int) ≤ s.blobs.length + s.num_pixels_remaining ∧
        (s.blob = [] → LogInv width num_classes rbs s →
          LogInv width num_classes rbs s' ∧ s'.blob = []) := by
  induction k with
  | zero =>
    intro s hinv hk
    have := hinv.remaining_eq
    have hz : ¬ s.num_pixels_remaining > 0 := by omega
    refine ⟨s, ?_, hinv, by omega, by omega, fun h1 h2 => ⟨h2, h1⟩⟩
    simp only [ImageLayout.blobLoop, hz, if_false, pure, Except.pure]
  | succ k ih =>
    intro s hinv hk
    have := hinv.remaining_eq
    by_cases hpos : s.num_pixels_remaining > 0
    · obtain ⟨s1, hs1, hinv1, hdec, hb1, hnil1, hlog1⟩ :=
        blobIteration_spec rnd fuel num_classes rbs hinv hpos hn hfuel
      obtain ⟨s2, hs2, hinv2, hz2, hb2, hlog2⟩ := ih s1 hinv1 (by omega)
      refine ⟨s2, ?_, hinv2, hz2, by omega, ?_⟩
      · simp only [ImageLayout.blobLoop, hpos, if_true, hs1, bind, Except.bind]
        exact hs2
      · intro hnil hlog
        exact hlog2 hnil1 (hlog1 hnil hlog)
    · refine ⟨s, ?_, hinv, by omega, by omega, fun h1 h2 => ⟨h2, h1⟩⟩
      simp only [ImageLayout.blobLoop, hpos, if_false, pure, Except.pure]

/-- A run of `GenerateRandomLayout` on a grid with the size invariant, with at least
`width * height` units of fuel, returns; the final state of its loops has every cell filled
and satisfies the invariants. -/
theorem GenerateRandomLayout_spec (rnd : Nat → Nat) (fuel : Nat) (self : ImageLayout)
    (num_classes rbs : Int) (hw : 1 ≤ self.image_width_) (hh : 1 ≤ self.image_height_)
    (hsize : (self.spectral_class_map_.length : Int) = self.image_width_ * self.image_height_)
    (hn : 1 ≤ num_classes) (hfuel : self.image_width_ * self.image_height_ ≤ fuel) :
    ∃ final : ImageLayout.RandomState,
      self.GenerateRandomLayout rnd fuel num_classes rbs
        = .ok { layout := { self with
                  spectral_class_map_ := final.spectral_class_map_
                  previous_layout_ := .LAYOUT_TYPE_RANDOM
                  previous_num_classes_ := num_classes
                  previous_size_parameter_ := rbs }
                blobs := final.blobs
                draws := final.draws } ∧
      RandomInv self.image_width_ self.image_height_ final ∧
      final.num_pixels_remaining = 0 ∧ final.blob = [] ∧
      LogInv self.image_width_ num_classes rbs final ∧
      (final.blobs.length : Int) ≤ self.image_width_ * self.image_height_ := by
  have hinit : RandomInv self.image_width_ self.image_height_
      { spectral_class_map_ := self.spectral_class_map_
        filled_in_pixels := List.replicate self.spectral_class_map_.length false
        num_pixels_remaining := (self.spectral_class_map_.length : Int)
        edge_pixels := []
        draws := 0
        blob := []
        blobs := [] } := by
    refine ⟨hw, hh, hsize, ?_, ?_, by simp⟩
    · simp only [List.length_replicate]
      exact hsize
    · simp [List.count_replicate]
  have hlog : LogInv self.image_width_ num_classes rbs
      { spectral_class_map_ := self.spectral_class_map_
        filled_in_pixels := List.replicate self.spectral_class_map_.length false
        num_pixels_remaining := (self.spectral_class_map_.length : Int)
        edge_pixels := []
        draws := 0
        blob := []
        blobs := [] } := by
    refine ⟨by simp [ImageLayout.RandomState.written], ?_,
      by simp [ImageLayout.RandomState.written], by simp [ImageLayout.RandomState.written],
      by simp, by simp, by simp⟩
    intro i
    simp only [ImageLayout.RandomState.written, List.flatten_nil, List.append_nil, List.map_nil,
      List.not_mem_nil, false_iff, not_and, List.getElem?_replicate]
    intro _
    split <;> simp
  obtain ⟨final, hrun, hinv, hzero, hlen, hfin⟩ :=
    blobLoop_spec rnd fuel num_classes rbs hn hfuel fuel _ hinit (by simp only; omega)
  obtain ⟨hlogf, hnil⟩ := hfin rfl hlog
  refine ⟨final, ?_, hinv, hzero, hnil, hlogf, ?_⟩
  · simp only [ImageLayout.GenerateRandomLayout, hrun, bind, Except.bind, pure, Except.pure]
  · simp only [List.length_nil] at hlen
    omega

/-! ## The random layout: what the record of writes says -/

theorem Adjacent4.symm {width a b : Int} (h : Adjacent4 width a b) : Adjacent4 width b a := by
  unfold Adjacent4 at h ⊢
  omega

theorem Grown.ne_nil {width : Int} {cells : List Int} (h : Grown width cells) : cells ≠ [] := by
  cases h <;> simp

/-- A list of cells grown from a seed is connected. -/
theorem Grown.connected {width : Int} {cells : List Int} (h : Grown width cells) :
    Connected4 width cells := by
  induction h with
  | seed a =>
    intro u hu v hv
    simp only [List.mem_singleton] at hu hv
    subst hu hv
    exact Relation.ReflTransGen.refl
  | @grow cells a b _ ha hadj ih =>
    have lift : ∀ u v : Int,
        Relation.ReflTransGen (fun u v => u ∈ cells ∧ v ∈ cells ∧ Adjacent4 width u v) u v →
        Relation.ReflTransGen
          (fun u v => u ∈ cells ++ [b] ∧ v ∈ cells ++ [b] ∧ Adjacent4 width u v) u v := by
      intro u v huv
      exact Relation.ReflTransGen.mono
        (fun x y hxy => ⟨List.mem_append_left _ hxy.1, List.mem_append_left _ hxy.2.1, hxy.2.2⟩)
        huv
    have ha' : a ∈ cells ++ [b] := List.mem_append_left _ ha
    have hb' : b ∈ cells ++ [b] := List.mem_append_right _ (List.mem_singleton_self b)
    have toA : ∀ u ∈ cells ++ [b], Relation.ReflTransGen
        (fun u v => u ∈ cells ++ [b] ∧ v ∈ cells ++ [b] ∧ Adjacent4 width u v) u a := by
      intro u hu
      rcases List.mem_append.1 hu with h | h
      · exact lift u a (ih u h a ha)
      · simp only [List.mem_singleton] at h
        subst h
        exact Relation.ReflTransGen.single ⟨hb', ha', hadj.symm⟩
    have fromA : ∀ u ∈ cells ++ [b], Relation.ReflTransGen
        (fun u v => u ∈ cells ++ [b] ∧ v ∈ cells ++ [b] ∧ Adjacent4 width u v) a u := by
      intro u hu
      rcases List.mem_append.1 hu with h | h
      · exact lift a u (ih a ha u h)
      · simp only [List.mem_singleton] at h
        subst h
        exact Relation.ReflTransGen.single ⟨ha', hb', hadj⟩
    intro u hu v hv
    exact (toA u hu).trans (fromA v hv)

/-- When no unfilled cell is left, the recorded cells are the cells of the grid, each once. -/
theorem written_perm {width height num_classes rbs : Int} {s : ImageLayout.RandomState}
    (hinv : RandomInv width height s) (hlog : LogInv width num_classes rbs s)
    (hzero : s.num_pixels_remaining = 0) :
    (s.written.map Prod.fst).Perm ((List.range (width * height).toNat).map Int.ofNat) := by
  have hnd : ((List.range (width * height).toNat).map Int.ofNat).Nodup :=
    (List.nodup_range _).map (fun a b h => Int.ofNat.inj h)
  rw [List.perm_ext_iff_of_nodup hlog.nodup hnd]
  intro i
  rw [hlog.filled_iff i]
  have hfs := hinv.filled_size
  have hcount : s.filled_in_pixels.count false = 0 := by
    have := hinv.remaining_eq
    omega
  have hnf : false ∉ s.filled_in_pixels := List.count_eq_zero.1 hcount
  simp only [List.mem_map, List.mem_range]
  constructor
  · rintro ⟨hi0, hif⟩
    obtain ⟨hlt, _⟩ := List.getElem?_eq_some_iff.1 hif
    exact ⟨i.toNat, by omega, by simp [Int.toNat_of_nonneg hi0]⟩
  · rintro ⟨n, hn, rfl⟩
    have hlt : n < s.filled_in_pixels.length := by omega
    refine ⟨by simp, ?_⟩
    simp only [Int.ofNat_eq_coe, Int.toNat_ofNat]
    rw [List.getElem?_eq_getElem hlt]
    cases hv : s.filled_in_pixels[n] with
    | true => rfl
    | false => exact absurd (hv ▸ List.getElem_mem hlt) hnf

/-! ## Claims about the random layout -/

/-- C3: on a grid with width >= 1 and height >= 1 whose class map has width*height entries,
for num_classes >= 1, every random_blob_size and every stream of random draws, a run of
`GenerateRandomLayout` (with fuel for width*height iterations) returns; the cell indices it
wrote, in order, are a permutation of 0 .. width*height-1, every written value lies in
[0, num_classes), and the class map it leaves holds the written value at each cell. -/
theorem C3_random_layout_fills_each_pixel_once (rnd : Nat → Nat) (fuel : Nat)
    (self : ImageLayout) (num_classes random_blob_size : Int)
    (hw : 1 ≤ self.image_width_) (hh : 1 ≤ self.image_height_)
    (hsize : (self.spectral_class_map_.length : Int) = self.image_width_ * self.image_height_)
    (hn : 1 ≤ num_classes) (hfuel : self.image_width_ * self.image_height_ ≤ fuel) :
    ∃ run, self.GenerateRandomLayout rnd fuel num_classes random_blob_size = .ok run ∧
      (run.blobs.flatten.map Prod.fst).Perm
        ((List.range (self.image_width_ * self.image_height_).toNat).map Int.ofNat) ∧
      (∀ p ∈ run.blobs.flatten, 0 ≤ p.2 ∧ p.2 < num_classes) ∧
      (∀ p ∈ run.blobs.flatten, run.layout.spectral_class_map_[p.1.toNat]? = some p.2) := by
  obtain ⟨final, hrun, hinv, hzero, hnil, hlog, _⟩ :=
    GenerateRandomLayout_spec rnd fuel self num_classes random_blob_size hw hh hsize hn hfuel
  have hwr : final.written = final.blobs.flatten := by
    simp [ImageLayout.RandomState.written, hnil]
  refine ⟨_, hrun, ?_, ?_, ?_⟩
  · have := written_perm hinv hlog hzero
    rw [hwr] at this
    exact this
  · intro p hp
    exact hlog.classes p (hwr ▸ hp)
  · intro p hp
    exact hlog.values p (hwr ▸ hp)

/-- An instance of C3: a 2 x 2 grid, 2 classes, blobs of up to 3 cells, draws 0, 1, 2, ... -/
theorem C3_random_layout_fills_each_pixel_once_witness :
    ∃ run, ImageLayout.GenerateRandomLayout (fun i => i) 4
        ⟨2, 2, [9, 9, 9, 9], .LAYOUT_TYPE_NONE, 0, 0⟩ 2 3 = .ok run ∧
      (run.blobs.flatten.map Prod.fst).Perm
        ((List.range ((2 : Int) * 2).toNat).map Int.ofNat) ∧
      (∀ p ∈ run.blobs.flatten, 0 ≤ p.2 ∧ p.2 < 2) ∧
      (∀ p ∈ run.blobs.flatten, run.layout.spectral_class_map_[p.1.toNat]? = some p.2) :=
  C3_random_layout_fills_each_pixel_once (fun i => i) 4
    ⟨2, 2, [9, 9, 9, 9], .LAYOUT_TYPE_NONE, 0, 0⟩ 2 3
    (by decide) (by decide) (by decide) (by decide) (by decide)

/-- C4: on a grid with width >= 1 and height >= 1 whose class map has width*height entries,
for num_classes >= 1, every random_blob_size (also <= 0) and every stream of random draws:
in every state in which `num_pixels_remaining` is the number of `false` entries of the mask
(`RandomInv`) and is positive, the seed search from `qrand() % num_pixels_remaining` returns an
unfilled cell and the whole outer iteration returns, keeps that invariant and strictly
decreases `num_pixels_remaining`; the growth loop returns for every number of iterations;
and the whole run returns after at most width*height outer iterations (blobs). -/
theorem C4_random_layout_terminates (rnd : Nat → Nat) (fuel : Nat)
    (self : ImageLayout) (num_classes random_blob_size : Int)
    (hw : 1 ≤ self.image_width_) (hh : 1 ≤ self.image_height_)
    (hsize : (self.spectral_class_map_.length : Int) = self.image_width_ * self.image_height_)
    (hn : 1 ≤ num_classes) (hfuel : self.image_width_ * self.image_height_ ≤ fuel) :
    (∀ s : ImageLayout.RandomState,
      RandomInv self.image_width_ self.image_height_ s → 0 < s.num_pixels_remaining →
        (∃ i, ImageLayout.seedScan s.filled_in_pixels fuel
            ((rnd (s.draws + 1) : Int) % s.num_pixels_remaining) = .ok i ∧
          s.filled_in_pixels[i.toNat]? = some false) ∧
        ∃ s', ImageLayout.blobIteration rnd fuel self.image_width_ self.image_height_
            num_classes random_blob_size s = .ok s' ∧
          RandomInv self.image_width_ self.image_height_ s' ∧
          s'.num_pixels_remaining < s.num_pixels_remaining) ∧
    (∀ (s : ImageLayout.RandomState) (current_class : Int) (k : Nat),
      RandomInv self.image_width_ self.image_height_ s →
        ∃ s', ImageLayout.growLoop rnd self.image_width_ self.image_height_ current_class k s
          = .ok s') ∧
    ∃ run, self.GenerateRandomLayout rnd fuel num_classes random_blob_size = .ok run ∧
      (run.blobs.length : Int) ≤ self.image_width_ * self.image_height_ := by
  refine ⟨?_, ?_, ?_⟩
  · intro s hinv hrem
    constructor
    · have hcount := hinv.remaining_eq
      have hcl : s.filled_in_pixels.count false ≤ s.filled_in_pixels.length :=
        List.count_le_length _ _
      have hfs := hinv.filled_size
      have hst0 : 0 ≤ (rnd (s.draws + 1) : Int) % s.num_pixels_remaining :=
        Int.emod_nonneg _ (by omega)
      have hst1 : (rnd (s.draws + 1) : Int) % s.num_pixels_remaining
          < s.num_pixels_remaining := Int.emod_lt_of_pos _ hrem
      obtain ⟨j, hj0, hj1, hjf⟩ := exists_unfilled s.filled_in_pixels (by omega)
      obtain ⟨i, h3, _, _, hif⟩ := seedScan_finds s.filled_in_pixels fuel
        ((rnd (s.draws + 1) : Int) % s.num_pixels_remaining) hst0 (by omega)
        ⟨j, hj0, hj1, hjf, by omega⟩
      exact ⟨i, h3, hif⟩
    · obtain ⟨s', hs', hinv', hdec, _⟩ :=
        blobIteration_spec rnd fuel num_classes random_blob_size hinv hrem hn hfuel
      exact ⟨s', hs', hinv', hdec⟩
  · intro s cls k hinv
    obtain ⟨s', hs', _⟩ := growLoop_spec rnd num_classes random_blob_size cls k s hinv
    exact ⟨s', hs'⟩
  · obtain ⟨final, hrun, _, _, _, _, hlen⟩ :=
      GenerateRandomLayout_spec rnd fuel self num_classes random_blob_size hw hh hsize hn hfuel
    exact ⟨_, hrun, hlen⟩

/-- An instance of C4: a 2 x 2 grid, 2 classes, random_blob_size 0, draws 0, 1, 2, ... -/
theorem C4_random_layout_terminates_witness :
    ∃ run, ImageLayout.GenerateRandomLayout (fun i => i) 4
        ⟨2, 2, [9, 9, 9, 9], .LAYOUT_TYPE_NONE, 0, 0⟩ 2 0 = .ok run ∧
      (run.blobs.length : Int) ≤ 2 * 2 :=
  (C4_random_layout_terminates (fun i => i) 4
    ⟨2, 2, [9, 9, 9, 9], .LAYOUT_TYPE_NONE, 0, 0⟩ 2 0
    (by decide) (by decide) (by decide) (by decide) (by decide)).2.2

/-- C5: in every run of `GenerateRandomLayout` (grid with width, height >= 1 and the size
invariant, num_classes >= 1, any random_blob_size, any draws), the cells written during one
iteration of the outer loop are a non-empty set of cells of the grid that is connected under
left/right/top/bottom adjacency, and they all carry one class, in the record of writes and in
the class map the run leaves. -/
theorem C5_random_layout_blobs_connected (rnd : Nat → Nat) (fuel : Nat)
    (self : ImageLayout) (num_classes random_blob_size : Int)
    (hw : 1 ≤ self.image_width_) (hh : 1 ≤ self.image_height_)
    (hsize : (self.spectral_class_map_.length : Int) = self.image_width_ * self.image_height_)
    (hn : 1 ≤ num_classes) (hfuel : self.image_width_ * self.image_height_ ≤ fuel) :
    ∃ run, self.GenerateRandomLayout rnd fuel num_classes random_blob_size = .ok run ∧
      ∀ blob ∈ run.blobs,
        blob ≠ [] ∧
        (∀ p ∈ blob, 0 ≤ p.1 ∧ p.1 < self.image_width_ * self.image_height_) ∧
        Connected4 self.image_width_ (blob.map Prod.fst) ∧
        ∃ c, ∀ p ∈ blob, p.2 = c ∧ run.layout.spectral_class_map_[p.1.toNat]? = some c := by
  obtain ⟨final, hrun, hinv, hzero, hnil, hlog, _⟩ :=
    GenerateRandomLayout_spec rnd fuel self num_classes random_blob_size hw hh hsize hn hfuel
  have hwr : final.written = final.blobs.flatten := by
    simp [ImageLayout.RandomState.written, hnil]
  refine ⟨_, hrun, ?_⟩
  intro blob hblob
  have hgrown := hlog.blobs_grown blob hblob
  have hmem : ∀ p ∈ blob, p ∈ final.written := by
    intro p hp
    rw [hwr]
    exact List.mem_flatten.2 ⟨blob, hblob, hp⟩
  refine ⟨?_, ?_, hgrown.connected, ?_⟩
  · intro h
    apply hgrown.ne_nil
    simp [h]
  · intro p hp
    obtain ⟨h0, hf⟩ := (hlog.filled_iff p.1).1 (List.mem_map_of_mem _ (hmem p hp))
    obtain ⟨hlt, _⟩ := List.getElem?_eq_some_iff.1 hf
    have := hinv.filled_size
    exact ⟨h0, by omega⟩
  · obtain ⟨c, hc⟩ := hlog.blobs_class blob hblob
    refine ⟨c, fun p hp => ⟨hc p hp, ?_⟩⟩
    have := hlog.values p (hmem p hp)
    rw [hc p hp] at this
    exact this

/-- An instance of C5: a 2 x 2 grid, 2 classes, blobs of up to 3 cells, draws 0, 1, 2, ... -/
theorem C5_random_layout_blobs_connected_witness :
    ∃ run, ImageLayout.GenerateRandomLayout (fun i => i) 4
        ⟨2, 2, [9, 9, 9, 9], .LAYOUT_TYPE_NONE, 0, 0⟩ 2 3 = .ok run ∧
      ∀ blob ∈ run.blobs,
        blob ≠ [] ∧
        (∀ p ∈ blob, 0 ≤ p.1 ∧ p.1 < (2 : Int) * 2) ∧
        Connected4 2 (blob.map Prod.fst) ∧
        ∃ c, ∀ p ∈ blob, p.2 = c ∧ run.layout.spectral_class_map_[p.1.toNat]? = some c :=
  C5_random_layout_blobs_connected (fun i => i) 4
    ⟨2, 2, [9, 9, 9, 9], .LAYOUT_TYPE_NONE, 0, 0⟩ 2 3
    (by decide) (by decide) (by decide) (by decide) (by decide)

/-- C6: in every run of `GenerateRandomLayout` with random_blob_size >= 1 (grid with width,
height >= 1 and the size invariant, num_classes >= 1, any draws), the number of cells
written during any one iteration of the outer loop is at most random_blob_size. -/
theorem C6_random_layout_blob_size_bound (rnd : Nat → Nat) (fuel : Nat)
    (self : ImageLayout) (num_classes random_blob_size : Int)
    (hw : 1 ≤ self.image_width_) (hh : 1 ≤ self.image_height_)
    (hsize : (self.spectral_class_map_.length : Int) = self.image_width_ * self.image_height_)
    (hn : 1 ≤ num_classes) (hfuel : self.image_width_ * self.image_height_ ≤ fuel)
    (hblob : 1 ≤ random_blob_size) :
    ∃ run, self.GenerateRandomLayout rnd fuel num_classes random_blob_size = .ok run ∧
      ∀ blob ∈ run.blobs, (blob.length : Int) ≤ random_blob_size := by
  obtain ⟨final, hrun, _, _, _, hlog, _⟩ :=
    GenerateRandomLayout_spec rnd fuel self num_classes random_blob_size hw hh hsize hn hfuel
  refine ⟨_, hrun, ?_⟩
  intro blob hb
  have := hlog.blobs_size blob hb
  omega

/-- An instance of C6: a 2 x 2 grid, 2 classes, blobs of up to 3 cells, draws 0, 1, 2, ... -/
theorem C6_random_layout_blob_size_bound_witness :
    ∃ run, ImageLayout.GenerateRandomLayout (fun i => i) 4
        ⟨2, 2, [9, 9, 9, 9], .LAYOUT_TYPE_NONE, 0, 0⟩ 2 3 = .ok run ∧
      ∀ blob ∈ run.blobs, (blob.length : Int) ≤ 3 :=
  C6_random_layout_blob_size_bound (fun i => i) 4
    ⟨2, 2, [9, 9, 9, 9], .LAYOUT_TYPE_NONE, 0, 0⟩ 2 3
    (by decide) (by decide) (by decide) (by decide) (by decide) (by decide)

/-! ## Vertical stripes and the default band -/

/-- C12: for width, height >= 1, num_classes >= 1 and a size parameter whose effective band
(stripe_width when positive, else min(width / num_classes, 25)) is >= 1:
`GenerateVerticalStripesLayout` on a width x height grid and
`GenerateHorizontalStripesLayout` on a height x width grid both return, and the class at
(column x, row y) of the first equals the class at (column y, row x) of the second, namely
`(x / band) % num_classes` (so every column of the first is uniform). -/
theorem C12_vertical_mirrors_horizontal (vself hself : ImageLayout)
    (num_classes stripe_width band : Int)
    (hw : 1 ≤ vself.image_width_) (hh : 1 ≤ vself.image_height_)
    (hvsize : (vself.spectral_class_map_.length : Int)
      = vself.image_width_ * vself.image_height_)
    (hmw : hself.image_width_ = vself.image_height_)
    (hmh : hself.image_height_ = vself.image_width_)
    (hhsize : (hself.spectral_class_map_.length : Int)
      = hself.image_width_ * hself.image_height_)
    (hn : 1 ≤ num_classes)
    (hband : band = if stripe_width > 0 then stripe_width
      else min (vself.image_width_ / num_classes) 25)
    (hb : 1 ≤ band) :
    ∃ vafter hafter,
      vself.GenerateVerticalStripesLayout num_classes stripe_width = .ok vafter ∧
      hself.GenerateHorizontalStripesLayout num_classes stripe_width = .ok hafter ∧
      ∀ x y : Int, 0 ≤ x → x < vself.image_width_ → 0 ≤ y → y < vself.image_height_ →
        vafter.GetClassAtPixel x y = .ok ((x / band) % num_classes) ∧
        hafter.GetClassAtPixel y x = vafter.GetClassAtPixel x y := by
  subst hband
  obtain ⟨mv, hv, hpv⟩ := vertical_spec vself num_classes stripe_width (by omega) hvsize hn hb
  obtain ⟨mh, hh', hph⟩ := horizontal_spec hself num_classes stripe_width (by omega) (by omega)
    hhsize hn (by rw [hmh]; exact hb)
  refine ⟨_, _, hv, hh', ?_⟩
  intro x y hx0 hx hy0 hy
  have e1 : ImageLayout.GetClassAtPixel
      ⟨vself.image_width_, vself.image_height_, mv, .LAYOUT_TYPE_VERTICAL_STRIPES, num_classes,
        stripe_width⟩ x y
        = .ok ((x / (if stripe_width > 0 then stripe_width
            else min (vself.image_width_ / num_classes) 25)) % num_classes) :=
    Painted.getClass (show 0 ≤ vself.image_width_ by omega) hpv hx0 hx hy0 hy
  have e2 : ImageLayout.GetClassAtPixel
      ⟨hself.image_width_, hself.image_height_, mh, .LAYOUT_TYPE_HORIZONTAL_STRIPES, num_classes,
        stripe_width⟩ y x
        = .ok ((x / (if stripe_width > 0 then stripe_width
            else min (hself.image_height_ / num_classes) 25)) % num_classes) :=
    Painted.getClass (show 0 ≤ hself.image_width_ by omega) hph
      (show 0 ≤ y by omega) (show y < hself.image_width_ by omega)
      (show 0 ≤ x by omega) (show x < hself.image_height_ by omega)
  rw [hmh] at e2
  exact ⟨e1, e2.trans e1.symm⟩

/-- An instance of C12: vertical stripes on a 6 x 2 grid against horizontal stripes on a
2 x 6 grid, 3 classes, stripe width 2. -/
theorem C12_vertical_mirrors_horizontal_witness :
    ∃ vafter hafter,
      ImageLayout.GenerateVerticalStripesLayout
        ⟨6, 2, List.replicate 12 7, .LAYOUT_TYPE_NONE, 0, 0⟩ 3 2 = .ok vafter ∧
      ImageLayout.GenerateHorizontalStripesLayout
        ⟨2, 6, List.replicate 12 4, .LAYOUT_TYPE_NONE, 0, 0⟩ 3 2 = .ok hafter ∧
      ∀ x y : Int, 0 ≤ x → x < 6 → 0 ≤ y → y < 2 →
        vafter.GetClassAtPixel x y = .ok ((x / 2) % 3) ∧
        hafter.GetClassAtPixel y x = vafter.GetClassAtPixel x y :=
  C12_vertical_mirrors_horizontal ⟨6, 2, List.replicate 12 7, .LAYOUT_TYPE_NONE, 0, 0⟩
    ⟨2, 6, List.replicate 12 4, .LAYOUT_TYPE_NONE, 0, 0⟩ 3 2 2
    (by decide) (by decide) (by decide) (by decide) (by decide) (by decide) (by decide)
    (by decide) (by decide)

/-- With at least `n` cells along a dimension `d`, the default band `min (d / n) 25` is
positive and the cell `c * band` lies inside the dimension and in band number `c`. -/
theorem default_band_cover {d n c : Int} (hn : 1 ≤ n) (hd : n ≤ d) (hc0 : 0 ≤ c)
    (hc : c < n) :
    1 ≤ min (d / n) 25 ∧ 0 ≤ c * min (d / n) 25 ∧ c * min (d / n) 25 < d ∧
      (c * min (d / n) 25 / min (d / n) 25) % n = c := by
  have hq : 1 ≤ d / n := by
    rw [Int.le_ediv_iff_mul_le (by omega)]
    omega
  have hb1 : 1 ≤ min (d / n) 25 := by omega
  have hbq : min (d / n) 25 ≤ d / n := by omega
  have h1 : d / n * n ≤ d := Int.ediv_mul_le d (by omega)
  have h2 : min (d / n) 25 * n ≤ d / n * n := Int.mul_le_mul_of_nonneg_right hbq (by omega)
  have h3 : c * min (d / n) 25 ≤ (n - 1) * min (d / n) 25 :=
    Int.mul_le_mul_of_nonneg_right (by omega) (by omega)
  have h4 : (n - 1) * min (d / n) 25 = min (d / n) 25 * n - min (d / n) 25 := by ring
  have h5 : 0 ≤ c * min (d / n) 25 := Int.mul_nonneg hc0 (by omega)
  refine ⟨hb1, h5, by omega, ?_⟩
  rw [Int.mul_ediv_cancel c (show min (d / n) 25 ≠ 0 by omega), Int.emod_eq_of_lt hc0 hc]

/-- C16: on a grid with width >= 1 and height >= 1 and the size invariant, for
num_classes >= 1 and a size parameter <= 0: if height >= num_classes then
`GenerateHorizontalStripesLayout` returns and every class 0 .. num_classes-1 fills at least
one row; if width >= num_classes then `GenerateVerticalStripesLayout` and
`GenerateGridLayout` return and every class 0 .. num_classes-1 is the class of at least one
pixel. -/
theorem C16_default_band_shows_all_classes (self : ImageLayout)
    (num_classes size_parameter : Int)
    (hw : 1 ≤ self.image_width_) (hh : 1 ≤ self.image_height_)
    (hsize : (self.spectral_class_map_.length : Int) = self.image_width_ * self.image_height_)
    (hn : 1 ≤ num_classes) (hs : size_parameter ≤ 0) :
    (num_classes ≤ self.image_height_ →
      ∃ after, self.GenerateHorizontalStripesLayout num_classes size_parameter = .ok after ∧
        ∀ c : Int, 0 ≤ c → c < num_classes →
          ∃ y : Int, 0 ≤ y ∧ y < self.image_height_ ∧
            ∀ x : Int, 0 ≤ x → x < self.image_width_ → after.GetClassAtPixel x y = .ok c) ∧
    (num_classes ≤ self.image_width_ →
      ∃ after, self.GenerateVerticalStripesLayout num_classes size_parameter = .ok after ∧
        ∀ c : Int, 0 ≤ c → c < num_classes →
          ∃ x y : Int, 0 ≤ x ∧ x < self.image_width_ ∧ 0 ≤ y ∧ y < self.image_height_ ∧
            after.GetClassAtPixel x y = .ok c) ∧
    (num_classes ≤ self.image_width_ →
      ∃ after, self.GenerateGridLayout num_classes size_parameter = .ok after ∧
        ∀ c : Int, 0 ≤ c → c < num_classes →
          ∃ x y : Int, 0 ≤ x ∧ x < self.image_width_ ∧ 0 ≤ y ∧ y < self.image_height_ ∧
            after.GetClassAtPixel x y = .ok c) := by
  have hneg : ¬ size_parameter > 0 := by omega
  refine ⟨?_, ?_, ?_⟩
  · intro hfit
    have hb : 1 ≤ min (self.image_height_ / num_classes) 25 := by
      have hq : 1 ≤ self.image_height_ / num_classes := by
        rw [Int.le_ediv_iff_mul_le (by omega)]
        omega
      omega
    obtain ⟨m, hm, hp⟩ := horizontal_spec self num_classes size_parameter (by omega) (by omega)
      hsize hn (by rw [if_neg hneg]; exact hb)
    rw [if_neg hneg] at hp
    refine ⟨_, hm, ?_⟩
    intro c hc0 hc
    obtain ⟨_, hy0, hy, hval⟩ := default_band_cover hn hfit hc0 hc
    refine ⟨c * min (self.image_height_ / num_classes) 25, hy0, hy, ?_⟩
    intro x hx0 hx
    have e : ImageLayout.GetClassAtPixel
        ⟨self.image_width_, self.image_height_, m, .LAYOUT_TYPE_HORIZONTAL_STRIPES, num_classes,
          size_parameter⟩ x (c * min (self.image_height_ / num_classes) 25)
          = .ok ((c * min (self.image_height_ / num_classes) 25
              / min (self.image_height_ / num_classes) 25) % num_classes) :=
      Painted.getClass (show 0 ≤ self.image_width_ by omega) hp hx0 hx hy0 hy
    rw [hval] at e
    exact e
  · intro hfit
    obtain ⟨hb, hx0, hx, hval⟩ := default_band_cover hn hfit (c := 0) (by omega) (by omega)
    obtain ⟨m, hm, hp⟩ := vertical_spec self num_classes size_parameter (by omega)
      hsize hn (by rw [if_neg hneg]; exact hb)
    rw [if_neg hneg] at hp
    refine ⟨_, hm, ?_⟩
    intro c hc0 hc
    obtain ⟨_, hx0, hx, hval⟩ := default_band_cover hn hfit hc0 hc
    refine ⟨c * min (self.image_width_ / num_classes) 25, 0, hx0, hx, le_refl _, by omega, ?_⟩
    have e : ImageLayout.GetClassAtPixel
        ⟨self.image_width_, self.image_height_, m, .LAYOUT_TYPE_VERTICAL_STRIPES, num_classes,
          size_parameter⟩ (c * min (self.image_width_ / num_classes) 25) 0
          = .ok ((c * min (self.image_width_ / num_classes) 25
              / min (self.image_width_ / num_classes) 25) % num_classes) :=
      Painted.getClass (show 0 ≤ self.image_width_ by omega) hp hx0 hx (le_refl _) (by omega)
    rw [hval] at e
    exact e
  · intro hfit
    obtain ⟨hb, _, _, _⟩ := default_band_cover hn hfit (c := 0) (by omega) (by omega)
    obtain ⟨m, hm, hp⟩ := grid_spec self num_classes size_parameter (by omega)
      hsize hn (by rw [if_neg hneg]; exact hb)
    rw [if_neg hneg] at hp
    refine ⟨_, hm, ?_⟩
    intro c hc0 hc
    obtain ⟨_, hx0, hx, hval⟩ := default_band_cover hn hfit hc0 hc
    refine ⟨c * min (self.image_width_ / num_classes) 25, 0, hx0, hx, le_refl _, by omega, ?_⟩
    have e : ImageLayout.GetClassAtPixel
        ⟨self.image_width_, self.image_height_, m, .LAYOUT_TYPE_GRID, num_classes,
          size_parameter⟩ (c * min (self.image_width_ / num_classes) 25) 0
          = .ok ((0 / min (self.image_width_ / num_classes) 25
              + c * min (self.image_width_ / num_classes) 25
                / min (self.image_width_ / num_classes) 25) % num_classes) :=
      Painted.getClass (show 0 ≤ self.image_width_ by omega) hp hx0 hx (le_refl _) (by omega)
    rw [Int.zero_ediv, Int.zero_add, hval] at e
    exact e

/-- An instance of C16: a 7 x 5 grid, 3 classes, size parameter 0. -/
theorem C16_default_band_shows_all_classes_witness :
    ∃ after, ImageLayout.GenerateHorizontalStripesLayout
        ⟨7, 5, List.replicate 35 0, .LAYOUT_TYPE_NONE, 0, 0⟩ 3 0 = .ok after ∧
      ∀ c : Int, 0 ≤ c → c < 3 →
        ∃ y : Int, 0 ≤ y ∧ y < 5 ∧
          ∀ x : Int, 0 ≤ x → x < 7 → after.GetClassAtPixel x y = .ok c :=
  (C16_default_band_shows_all_classes ⟨7, 5, List.replicate 35 0, .LAYOUT_TYPE_NONE, 0, 0⟩ 3 0
    (by decide) (by decide) (by decide) (by decide) (by decide)).1 (by decide)

/-! ## Resizing by the generation record -/

/-- With the record `LAYOUT_TYPE_HORIZONTAL_STRIPES`, `SetImageSize` returns what
`GenerateHorizontalStripesLayout` with the recorded parameters gives on a fresh grid. -/
theorem setImageSize_horizontal (rnd : Nat → Nat) (fuel : Nat) (g : ImageLayout)
    (width height : Int) (hw : 0 ≤ width) (hh : 0 ≤ height)
    (hk : g.previous_layout_ = .LAYOUT_TYPE_HORIZONTAL_STRIPES)
    (hn : 1 ≤ g.previous_num_classes_)
    (hband : 1 ≤ (if g.previous_size_parameter_ > 0 then g.previous_size_parameter_
      else min (height / g.previous_num_classes_) 25)) :
    ∃ after, g.SetImageSize rnd fuel width height = .ok after ∧
      (ImageLayout.construct width height >>= fun fresh =>
        fresh.GenerateHorizontalStripesLayout g.previous_num_classes_
          g.previous_size_parameter_) = .ok after := by
  obtain ⟨m0, hfresh, hl0⟩ := construct_ok hw hh
  obtain ⟨gw, gh, gm, kind, pn, ps⟩ := g
  simp only at hk hn hband
  subst hk
  obtain ⟨m1, hres, hl1⟩ := vresize_ok gm (Int.mul_nonneg hw hh)
  obtain ⟨a, ha, hpa⟩ := horizontal_spec
    ⟨width, height, m1, .LAYOUT_TYPE_HORIZONTAL_STRIPES, pn, ps⟩ pn ps hw hh hl1 hn hband
  obtain ⟨b, hb, hpb⟩ := horizontal_spec
    ⟨width, height, m0, .LAYOUT_TYPE_NONE, 0, 0⟩ pn ps hw hh hl0 hn hband
  have hab : a = b := Painted.unique hw hpa hpb
  subst hab
  refine ⟨⟨width, height, a, .LAYOUT_TYPE_HORIZONTAL_STRIPES, pn, ps⟩, ?_, ?_⟩
  · simp only [ImageLayout.SetImageSize, hres, bind, Except.bind]
    exact ha
  · simp only [hfresh, bind, Except.bind]
    exact hb

/-- With the record `LAYOUT_TYPE_VERTICAL_STRIPES`, `SetImageSize` returns what
`GenerateVerticalStripesLayout` with the recorded parameters gives on a fresh grid. -/
theorem setImageSize_vertical (rnd : Nat → Nat) (fuel : Nat) (g : ImageLayout)
    (width height : Int) (hw : 0 ≤ width) (hh : 0 ≤ height)
    (hk : g.previous_layout_ = .LAYOUT_TYPE_VERTICAL_STRIPES)
    (hn : 1 ≤ g.previous_num_classes_)
    (hband : 1 ≤ (if g.previous_size_parameter_ > 0 then g.previous_size_parameter_
      else min (width / g.previous_num_classes_) 25)) :
    ∃ after, g.SetImageSize rnd fuel width height = .ok after ∧
      (ImageLayout.construct width height >>= fun fresh =>
        fresh.GenerateVerticalStripesLayout g.previous_num_classes_
          g.previous_size_parameter_) = .ok after := by
  obtain ⟨m0, hfresh, hl0⟩ := construct_ok hw hh
  obtain ⟨gw, gh, gm, kind, pn, ps⟩ := g
  simp only at hk hn hband
  subst hk
  obtain ⟨m1, hres, hl1⟩ := vresize_ok gm (Int.mul_nonneg hw hh)
  obtain ⟨a, ha, hpa⟩ := vertical_spec
    ⟨width, height, m1, .LAYOUT_TYPE_VERTICAL_STRIPES, pn, ps⟩ pn ps hw hl1 hn hband
  obtain ⟨b, hb, hpb⟩ := vertical_spec
    ⟨width, height, m0, .LAYOUT_TYPE_NONE, 0, 0⟩ pn ps hw hl0 hn hband
  have hab : a = b := Painted.unique hw hpa hpb
  subst hab
  refine ⟨⟨width, height, a, .LAYOUT_TYPE_VERTICAL_STRIPES, pn, ps⟩, ?_, ?_⟩
  · simp only [ImageLayout.SetImageSize, hres, bind, Except.bind]
    exact ha
  · simp only [hfresh, bind, Except.bind]
    exact hb

/-- With the record `LAYOUT_TYPE_GRID`, `SetImageSize` returns what `GenerateGridLayout`
with the recorded parameters gives on a fresh grid. -/
theorem setImageSize_grid (rnd : Nat → Nat) (fuel : Nat) (g : ImageLayout)
    (width height : Int) (hw : 0 ≤ width) (hh : 0 ≤ height)
    (hk : g.previous_layout_ = .LAYOUT_TYPE_GRID)
    (hn : 1 ≤ g.previous_num_classes_)
    (hband : 1 ≤ (if g.previous_size_parameter_ > 0 then g.previous_size_parameter_
      else min (width / g.previous_num_classes_) 25)) :
    ∃ after, g.SetImageSize rnd fuel width height = .ok after ∧
      (ImageLayout.construct width height >>= fun fresh =>
        fresh.GenerateGridLayout g.previous_num_classes_
          g.previous_size_parameter_) = .ok after := by
  obtain ⟨m0, hfresh, hl0⟩ := construct_ok hw hh
  obtain ⟨gw, gh, gm, kind, pn, ps⟩ := g
  simp only at hk hn hband
  subst hk
  obtain ⟨m1, hres, hl1⟩ := vresize_ok gm (Int.mul_nonneg hw hh)
  obtain ⟨a, ha, hpa⟩ := grid_spec
    ⟨width, height, m1, .LAYOUT_TYPE_GRID, pn, ps⟩ pn ps hw hl1 hn hband
  obtain ⟨b, hb, hpb⟩ := grid_spec
    ⟨width, height, m0, .LAYOUT_TYPE_NONE, 0, 0⟩ pn ps hw hl0 hn hband
  have hab : a = b := Painted.unique hw hpa hpb
  subst hab
  refine ⟨⟨width, height, a, .LAYOUT_TYPE_GRID, pn, ps⟩, ?_, ?_⟩
  · simp only [ImageLayout.SetImageSize, hres, bind, Except.bind]
    exact ha
  · simp only [hfresh, bind, Except.bind]
    exact hb

/-- C14: for every state, after `ResetLayout` the class map has as many entries as before and
every entry is 0; width, height and the generation record (layout kind, num_classes, size
parameter) are unchanged.  So a later `SetImageSize(width, height)` (width, height >= 0)
regenerates the layout recorded before the reset: with a pattern kind recorded, recorded
num_classes >= 1 and effective band >= 1 at the new size, it returns what the recorded
generator gives on a fresh grid, and with the random kind recorded it returns the layout of
a run of `GenerateRandomLayout` with the recorded parameters. -/
theorem C14_reset_layout_frame (rnd : Nat → Nat) (fuel : Nat) (self : ImageLayout)
    (width height : Int) (hw : 0 ≤ width) (hh : 0 ≤ height) :
    (self.ResetLayout.spectral_class_map_.length = self.spectral_class_map_.length ∧
      ∀ v ∈ self.ResetLayout.spectral_class_map_, v = 0) ∧
    (self.ResetLayout.image_width_ = self.image_width_ ∧
      self.ResetLayout.image_height_ = self.image_height_ ∧
      self.ResetLayout.previous_layout_ = self.previous_layout_ ∧
      self.ResetLayout.previous_num_classes_ = self.previous_num_classes_ ∧
      self.ResetLayout.previous_size_parameter_ = self.previous_size_parameter_) ∧
    (1 ≤ self.previous_num_classes_ →
      (self.previous_layout_ = .LAYOUT_TYPE_HORIZONTAL_STRIPES →
        1 ≤ (if self.previous_size_parameter_ > 0 then self.previous_size_parameter_
          else min (height / self.previous_num_classes_) 25) →
        ∃ after, self.ResetLayout.SetImageSize rnd fuel width height = .ok after ∧
          (ImageLayout.construct width height >>= fun fresh =>
            fresh.GenerateHorizontalStripesLayout self.previous_num_classes_
              self.previous_size_parameter_) = .ok after) ∧
      (self.previous_layout_ = .LAYOUT_TYPE_VERTICAL_STRIPES →
        1 ≤ (if self.previous_size_parameter_ > 0 then self.previous_size_parameter_
          else min (width / self.previous_num_classes_) 25) →
        ∃ after, self.ResetLayout.SetImageSize rnd fuel width height = .ok after ∧
          (ImageLayout.construct width height >>= fun fresh =>
            fresh.GenerateVerticalStripesLayout self.previous_num_classes_
              self.previous_size_parameter_) = .ok after) ∧
      (self.previous_layout_ = .LAYOUT_TYPE_GRID →
        1 ≤ (if self.previous_size_parameter_ > 0 then self.previous_size_parameter_
          else min (width / self.previous_num_classes_) 25) →
        ∃ after, self.ResetLayout.SetImageSize rnd fuel width height = .ok after ∧
          (ImageLayout.construct width height >>= fun fresh =>
            fresh.GenerateGridLayout self.previous_num_classes_
              self.previous_size_parameter_) = .ok after) ∧
      (self.previous_layout_ = .LAYOUT_TYPE_RANDOM → 1 ≤ width → 1 ≤ height →
        width * height ≤ fuel →
        ∃ run, ImageLayout.GenerateRandomLayout rnd fuel
            ⟨width, height, List.replicate (width * height).toNat 0, .LAYOUT_TYPE_RANDOM,
              self.previous_num_classes_, self.previous_size_parameter_⟩
            self.previous_num_classes_ self.previous_size_parameter_ = .ok run ∧
          self.ResetLayout.SetImageSize rnd fuel width height = .ok run.layout)) := by
  refine ⟨⟨by simp [ImageLayout.ResetLayout], by simp [ImageLayout.ResetLayout]⟩,
    ⟨rfl, rfl, rfl, rfl, rfl⟩, ?_⟩
  intro hn
  refine ⟨?_, ?_, ?_, ?_⟩
  · intro hk hband
    exact setImageSize_horizontal rnd fuel self.ResetLayout width height hw hh hk hn hband
  · intro hk hband
    exact setImageSize_vertical rnd fuel self.ResetLayout width height hw hh hk hn hband
  · intro hk hband
    exact setImageSize_grid rnd fuel self.ResetLayout width height hw hh hk hn hband
  · intro hk hw1 hh1 hfuel
    have hzero : vresize (self.spectral_class_map_.map (fun _ => (0 : Int))) (width * height)
        = .ok (List.replicate (width * height).toNat 0) := by
      have hp : 0 ≤ width * height := Int.mul_nonneg hw hh
      simp only [vresize, hp, if_true]
      congr 1
      apply List.ext_getElem?
      intro i
      simp only [List.getElem?_append, List.length_take, List.length_map, List.getElem?_take,
        List.getElem?_map, List.getElem?_replicate]
      by_cases h1 : i < (width * height).toNat
      · by_cases h2 : i < self.spectral_class_map_.length
        · have e1 : i < min (width * height).toNat self.spectral_class_map_.length := by omega
          simp [h1, h2, e1]
        · have e1 : ¬ i < min (width * height).toNat self.spectral_class_map_.length := by
            omega
          have e2 : i - min (width * height).toNat self.spectral_class_map_.length
              < (width * height).toNat - self.spectral_class_map_.length := by omega
          simp [h1, e1, e2]
      · have e1 : ¬ i < min (width * height).toNat self.spectral_class_map_.length := by omega
        have e2 : ¬ i - min (width * height).toNat self.spectral_class_map_.length
            < (width * height).toNat - self.spectral_class_map_.length := by omega
        simp [h1, e1, e2]
    obtain ⟨final, hrun, _⟩ := GenerateRandomLayout_spec rnd fuel
      ⟨width, height, List.replicate (width * height).toNat 0, .LAYOUT_TYPE_RANDOM,
        self.previous_num_classes_, self.previous_size_parameter_⟩
      self.previous_num_classes_ self.previous_size_parameter_ hw1 hh1
      (by
        have hp : 0 ≤ width * height := Int.mul_nonneg hw hh
        simp only [List.length_replicate]
        omega)
      hn hfuel
    refine ⟨_, hrun, ?_⟩
    simp only [ImageLayout.SetImageSize, ImageLayout.ResetLayout, hzero, hk, bind, Except.bind,
      hrun, pure, Except.pure]

/-- An instance of C14: a 2 x 2 grid with horizontal stripes recorded (2 classes, band 1),
reset and resized to 2 x 4. -/
theorem C14_reset_layout_frame_witness :
    ∃ after, ImageLayout.SetImageSize (fun _ => 0) 0
        (ImageLayout.ResetLayout ⟨2, 2, [0, 0, 1, 1], .LAYOUT_TYPE_HORIZONTAL_STRIPES, 2, 1⟩)
        2 4 = .ok after ∧
      (ImageLayout.construct 2 4 >>= fun fresh =>
        fresh.GenerateHorizontalStripesLayout 2 1) = .ok after :=
  (C14_reset_layout_frame (fun _ => 0) 0
    ⟨2, 2, [0, 0, 1, 1], .LAYOUT_TYPE_HORIZONTAL_STRIPES, 2, 1⟩ 2 4
    (by decide) (by decide)).2.2 (by decide) |>.1 rfl (by decide)

/-! ## Resizing after an image-based layout -/

theorem vresize_getElem? (v : List Int) {n : Int} (hn : 0 ≤ n) :
    ∃ v', vresize v n = .ok v' ∧ (v'.length : Int) = n ∧
      ∀ i : Nat, i < n.toNat → v'[i]? = some (v[i]?.getD 0) := by
  refine ⟨v.take n.toNat ++ List.replicate (n.toNat - v.length) 0, by simp [vresize, hn], ?_, ?_⟩
  · simp only [List.length_append, List.length_take, List.length_replicate]
    omega
  · intro i hi
    simp only [List.getElem?_append, List.length_take, List.getElem?_take,
      List.getElem?_replicate]
    by_cases h2 : i < v.length
    · have e1 : i < min n.toNat v.length := by omega
      simp [hi, e1, List.getElem?_eq_getElem h2]
    · have e1 : ¬ i < min n.toNat v.length := by omega
      have e2 : i - min n.toNat v.length < n.toNat - v.length := by omega
      simp [e1, e2, List.getElem?_eq_none (show v.length ≤ i by omega)]

/-- A call of `GenerateLayoutFromImage` that returns changed nothing but the class map. -/
theorem image_frame {self imaged : ImageLayout} {num_classes : Int} {image : ImageLayout.QImage}
    (h : self.GenerateLayoutFromImage num_classes image = .ok imaged) :
    imaged = { self with spectral_class_map_ := imaged.spectral_class_map_ } := by
  unfold ImageLayout.GenerateLayoutFromImage at h
  cases h2 : forLoop self.image_height_
      (fun row m =>
        forLoop self.image_width_
          (ImageLayout.imageCell self.image_width_ num_classes image row) m)
      self.spectral_class_map_ with
  | error e => simp [bind, Except.bind, h2] at h
  | ok m =>
    simp [bind, Except.bind, h2, pure, Except.pure] at h
    subst h
    rfl

/-- C11 (counterexample): on a fresh 2 x 2 grid, `GenerateLayoutFromImage` with 2 classes and
an all-white raster followed by `SetImageSize(2, 2)` leaves class 1, not 0, at pixel (0, 0);
and on a 2 x 2 grid on which horizontal stripes (2 classes, band 1) were generated before the
image call, the same two calls leave the stripes, with class 1 at pixel (0, 1). -/
theorem C11_resize_after_image_not_blank :
    (ImageLayout.construct 2 2 >>= fun L =>
        L.GenerateLayoutFromImage 2 ⟨fun _ _ => 255⟩ >>= fun L =>
        L.SetImageSize (fun _ => 0) 0 2 2 >>= fun L =>
        L.GetClassAtPixel 0 0) = .ok 1 ∧
      (ImageLayout.construct 2 2 >>= fun L =>
        L.GenerateHorizontalStripesLayout 2 1 >>= fun L =>
        L.GenerateLayoutFromImage 2 ⟨fun _ _ => 0⟩ >>= fun L =>
        L.SetImageSize (fun _ => 0) 0 2 2 >>= fun L =>
        L.GetClassAtPixel 0 1) = .ok 1 := by
  decide

/-- C11 (amended): a call of `GenerateLayoutFromImage` that returns leaves width, height and
the generation record as they were, and a following `SetImageSize(width, height)` with
width, height >= 1 acts by that record.  With the record `LAYOUT_TYPE_NONE` it returns and
the class at an in-range pixel (x, y) is the entry of the image-based class map at the same
linear index `y * width + x`, and 0 where that index is past its end.  With a pattern kind
recorded (recorded num_classes >= 1, effective band >= 1 at the new size) it returns what the
recorded generator gives on a fresh grid. -/
theorem C11_resize_after_image_by_record (rnd : Nat → Nat) (fuel : Nat)
    (self imaged : ImageLayout) (num_classes : Int) (image : ImageLayout.QImage)
    (width height : Int) (hw : 1 ≤ width) (hh : 1 ≤ height)
    (himg : self.GenerateLayoutFromImage num_classes image = .ok imaged) :
    (imaged.image_width_ = self.image_width_ ∧ imaged.image_height_ = self.image_height_ ∧
      imaged.previous_layout_ = self.previous_layout_ ∧
      imaged.previous_num_classes_ = self.previous_num_classes_ ∧
      imaged.previous_size_parameter_ = self.previous_size_parameter_) ∧
    (self.previous_layout_ = .LAYOUT_TYPE_NONE →
      ∃ after, imaged.SetImageSize rnd fuel width height = .ok after ∧
        ∀ x y : Int, 0 ≤ x → x < width → 0 ≤ y → y < height →
          after.GetClassAtPixel x y
            = .ok (imaged.spectral_class_map_[(y * width + x).toNat]?.getD 0)) ∧
    (1 ≤ self.previous_num_classes_ →
      (self.previous_layout_ = .LAYOUT_TYPE_HORIZONTAL_STRIPES →
        1 ≤ (if self.previous_size_parameter_ > 0 then self.previous_size_parameter_
          else min (height / self.previous_num_classes_) 25) →
        ∃ after, imaged.SetImageSize rnd fuel width height = .ok after ∧
          (ImageLayout.construct width height >>= fun fresh =>
            fresh.GenerateHorizontalStripesLayout self.previous_num_classes_
              self.previous_size_parameter_) = .ok after) ∧
      (self.previous_layout_ = .LAYOUT_TYPE_VERTICAL_STRIPES →
        1 ≤ (if self.previous_size_parameter_ > 0 then self.previous_size_parameter_
          else min (width / self.previous_num_classes_) 25) →
        ∃ after, imaged.SetImageSize rnd fuel width height = .ok after ∧
          (ImageLayout.construct width height >>= fun fresh =>
            fresh.GenerateVerticalStripesLayout self.previous_num_classes_
              self.previous_size_parameter_) = .ok after) ∧
      (self.previous_layout_ = .LAYOUT_TYPE_GRID →
        1 ≤ (if self.previous_size_parameter_ > 0 then self.previous_size_parameter_
          else min (width / self.previous_num_classes_) 25) →
        ∃ after, imaged.SetImageSize rnd fuel width height = .ok after ∧
          (ImageLayout.construct width height >>= fun fresh =>
            fresh.GenerateGridLayout self.previous_num_classes_
              self.previous_size_parameter_) = .ok after)) := by
  have hfr := image_frame himg
  have hw0 : 0 ≤ width := by omega
  have hh0 : 0 ≤ height := by omega
  have e1 : imaged.image_width_ = self.image_width_ := by rw [hfr]
  have e2 : imaged.image_height_ = self.image_height_ := by rw [hfr]
  have e3 : imaged.previous_layout_ = self.previous_layout_ := by rw [hfr]
  have e4 : imaged.previous_num_classes_ = self.previous_num_classes_ := by rw [hfr]
  have e5 : imaged.previous_size_parameter_ = self.previous_size_parameter_ := by rw [hfr]
  refine ⟨⟨e1, e2, e3, e4, e5⟩, ?_, ?_⟩
  · intro hk
    obtain ⟨v, hv, hvl, hvg⟩ := vresize_getElem? imaged.spectral_class_map_
      (Int.mul_nonneg hw0 hh0)
    refine ⟨⟨width, height, v, .LAYOUT_TYPE_NONE, imaged.previous_num_classes_,
      imaged.previous_size_parameter_⟩, ?_, ?_⟩
    · simp only [ImageLayout.SetImageSize, hv, bind, Except.bind, e3, hk, pure, Except.pure]
    · intro x y hx0 hx hy0 hy
      have hidx0 := cell_nonneg hy0 hx0 hw0
      have hidx := cell_lt hy hx hw0
      show vget v (y * width + x) = _
      exact vget_ok hidx0 (hvg _ (by omega))
  · intro hn
    rw [← e3, ← e4, ← e5]
    rw [← e4] at hn
    exact ⟨fun hk hb => setImageSize_horizontal rnd fuel imaged width height hw0 hh0 hk hn hb,
      fun hk hb => setImageSize_vertical rnd fuel imaged width height hw0 hh0 hk hn hb,
      fun hk hb => setImageSize_grid rnd fuel imaged width height hw0 hh0 hk hn hb⟩

/-- An instance of the amended C11: a fresh 2 x 2 grid, 2 classes, an all-white raster,
resized to 3 x 2. -/
theorem C11_resize_after_image_by_record_witness :
    ∃ after, ImageLayout.SetImageSize (fun _ => 0) 0
        ⟨2, 2, [1, 1, 1, 1], .LAYOUT_TYPE_NONE, 0, 0⟩ 3 2 = .ok after ∧
      ∀ x y : Int, 0 ≤ x → x < 3 → 0 ≤ y → y < 2 →
        after.GetClassAtPixel x y
          = .ok (([1, 1, 1, 1] : List Int)[(y * 3 + x).toNat]?.getD 0) :=
  (C11_resize_after_image_by_record (fun _ => 0) 0
    ⟨2, 2, [0, 0, 0, 0], .LAYOUT_TYPE_NONE, 0, 0⟩
    ⟨2, 2, [1, 1, 1, 1], .LAYOUT_TYPE_NONE, 0, 0⟩ 2 ⟨fun _ _ => 255⟩ 3 2
    (by decide) (by decide) (by decide)).2.1 rfl

/-! ## The size invariant -/

theorem bind_eq_ok {α β : Type} {x : Except Fault α} {f : α → Except Fault β} {b : β} :
    (x >>= f) = .ok b ↔ ∃ a, x = .ok a ∧ f a = .ok b := by
  cases x <;> simp [bind, Except.bind]

theorem vset_length {α : Type} {v v' : List α} {i : Int} {a : α} (h : vset v i a = .ok v') :
    v'.length = v.length := by
  unfold vset at h
  split at h
  · cases h
    simp
  · cases h

theorem vfill_length {v v' : List Int} {first last c : Int}
    (h : vfill v first last c = .ok v') : v'.length = v.length := by
  unfold vfill at h
  split at h
  · rename_i hc
    cases h
    simp only [List.length_append, List.length_take, List.length_replicate, List.length_drop]
    omega
  · cases h

theorem vresize_length {v v' : List Int} {n : Int} (h : vresize v n = .ok v') :
    (v'.length : Int) = n := by
  unfold vresize at h
  split at h
  · cases h
    simp only [List.length_append, List.length_take, List.length_replicate]
    omega
  · cases h

/-- A property kept by every iteration that returns is kept by a `for` loop that returns. -/
theorem forLoop_preserves {σ : Type} (P : σ → Prop) {n : Int}
    {body : Int → σ → Except Fault σ}
    (hbody : ∀ (i : Int) (s s' : σ), body i s = .ok s' → P s → P s') {init final : σ}
    (h : forLoop n body init = .ok final) (h0 : P init) : P final := by
  unfold forLoop at h
  generalize List.range n.toNat = l at h
  induction l generalizing init with
  | nil =>
    simp only [List.foldlM, pure, Except.pure] at h
    cases h
    exact h0
  | cons a l ih =>
    simp only [List.foldlM] at h
    obtain ⟨s1, h1, h2⟩ := bind_eq_ok.1 h
    exact ih (hbody _ _ _ h1 h0) h2

theorem horizontal_size {self after : ImageLayout} {num_classes stripe_width : Int}
    (h : self.GenerateHorizontalStripesLayout num_classes stripe_width = .ok after)
    (hinv : SizeInv self) : SizeInv after := by
  unfold ImageLayout.GenerateHorizontalStripesLayout at h
  obtain ⟨ppc, _, h⟩ := bind_eq_ok.1 h
  obtain ⟨m, hm, h⟩ := bind_eq_ok.1 h
  simp only [pure, Except.pure, Except.ok.injEq] at h
  subst h
  have hl : m.length = self.spectral_class_map_.length :=
    forLoop_preserves (fun m => m.length = self.spectral_class_map_.length)
      (by
        intro i s s' hs hP
        unfold ImageLayout.horizontalRow at hs
        obtain ⟨q, _, hs⟩ := bind_eq_ok.1 hs
        obtain ⟨c, _, hs⟩ := bind_eq_ok.1 hs
        rw [vfill_length hs]
        exact hP)
      hm rfl
  unfold SizeInv at hinv ⊢
  simp only [hl]
  exact hinv

theorem vertical_size {self after : ImageLayout} {num_classes stripe_width : Int}
    (h : self.GenerateVerticalStripesLayout num_classes stripe_width = .ok after)
    (hinv : SizeInv self) : SizeInv after := by
  unfold ImageLayout.GenerateVerticalStripesLayout at h
  obtain ⟨ppc, _, h⟩ := bind_eq_ok.1 h
  obtain ⟨m, hm, h⟩ := bind_eq_ok.1 h
  simp only [pure, Except.pure, Except.ok.injEq] at h
  subst h
  have hl : m.length = self.spectral_class_map_.length :=
    forLoop_preserves (fun m => m.length = self.spectral_class_map_.length)
      (by
        intro i s s' hs hP
        unfold ImageLayout.verticalCol at hs
        obtain ⟨q, _, hs⟩ := bind_eq_ok.1 hs
        obtain ⟨c, _, hs⟩ := bind_eq_ok.1 hs
        exact forLoop_preserves (fun m => m.length = self.spectral_class_map_.length)
          (by
            intro j t t' ht hQ
            rw [vset_length ht]
            exact hQ)
          hs hP)
      hm rfl
  unfold SizeInv at hinv ⊢
  simp only [hl]
  exact hinv

/-- A loop nest over rows and columns whose body is a single vector write keeps the length
of the class map. -/
theorem cellLoop_length {width height : Int}
    {body : Int → Int → List Int → Except Fault (List Int)}
    (hbody : ∀ (row col : Int) (m m' : List Int), body row col m = .ok m' →
      m'.length = m.length) {init final : List Int}
    (h : forLoop height (fun row m => forLoop width (body row) m) init = .ok final) :
    final.length = init.length :=
  forLoop_preserves (fun m => m.length = init.length)
    (by
      intro i s s' hs hP
      exact forLoop_preserves (fun m => m.length = init.length)
        (by
          intro j t t' ht hQ
          rw [hbody _ _ _ _ ht]
          exact hQ)
        hs hP)
    h rfl

theorem grid_size {self after : ImageLayout} {num_classes square_width : Int}
    (h : self.GenerateGridLayout num_classes square_width = .ok after)
    (hinv : SizeInv self) : SizeInv after := by
  unfold ImageLayout.GenerateGridLayout at h
  obtain ⟨ppc, _, h⟩ := bind_eq_ok.1 h
  obtain ⟨m, hm, h⟩ := bind_eq_ok.1 h
  simp only [pure, Except.pure, Except.ok.injEq] at h
  subst h
  have hl : m.length = self.spectral_class_map_.length :=
    cellLoop_length
      (by
        intro row col t t' ht
        unfold ImageLayout.gridCell at ht
        obtain ⟨qr, _, ht⟩ := bind_eq_ok.1 ht
        obtain ⟨qc, _, ht⟩ := bind_eq_ok.1 ht
        obtain ⟨c, _, ht⟩ := bind_eq_ok.1 ht
        exact vset_length ht)
      hm
  unfold SizeInv at hinv ⊢
  simp only [hl]
  exact hinv

theorem image_size {self after : ImageLayout} {num_classes : Int} {image : ImageLayout.QImage}
    (h : self.GenerateLayoutFromImage num_classes image = .ok after)
    (hinv : SizeInv self) : SizeInv after := by
  unfold ImageLayout.GenerateLayoutFromImage at h
  obtain ⟨m, hm, h⟩ := bind_eq_ok.1 h
  simp only [pure, Except.pure, Except.ok.injEq] at h
  subst h
  have hl : m.length = self.spectral_class_map_.length :=
    cellLoop_length
      (by
        intro row col t t' ht
        unfold ImageLayout.imageCell at ht
        obtain ⟨c, _, ht⟩ := bind_eq_ok.1 ht
        exact vset_length ht)
      hm
  unfold SizeInv at hinv ⊢
  simp only [hl]
  exact hinv

/-- What one iteration of the growth loop that returns did: it either erased one edge pixel
and left the class map, the count and the blob alone, or it wrote `current_class` to one
cell, counted it off and appended it to the blob and to the edge pixels. -/
theorem growStep_cases {rnd : Nat → Nat} {width height cls : Int}
    {s s' : ImageLayout.RandomState}
    (h : ImageLayout.growStep rnd width height cls s = .ok s') :
    s'.blobs = s.blobs ∧
    ((s'.spectral_class_map_ = s.spectral_class_map_ ∧
        s'.num_pixels_remaining = s.num_pixels_remaining ∧ s'.blob = s.blob ∧
        s'.edge_pixels.length + 1 = s.edge_pixels.length) ∨
      (∃ c, vset s.spectral_class_map_ c cls = .ok s'.spectral_class_map_ ∧
        s'.num_pixels_remaining = s.num_pixels_remaining - 1 ∧
        s'.blob = s.blob ++ [(c, cls)] ∧ s'.edge_pixels = s.edge_pixels ++ [c])) := by
  unfold ImageLayout.growStep at h
  obtain ⟨ei, _, h⟩ := bind_eq_ok.1 h
  obtain ⟨x, hx, h⟩ := bind_eq_ok.1 h
  obtain ⟨er, _, h⟩ := bind_eq_ok.1 h
  obtain ⟨ec, _, h⟩ := bind_eq_ok.1 h
  obtain ⟨cands, _, h⟩ := bind_eq_ok.1 h
  split at h
  · simp only [pure, Except.pure, Except.ok.injEq] at h
    subst h
    refine ⟨rfl, Or.inl ⟨rfl, rfl, rfl, ?_⟩⟩
    obtain ⟨h0, hget⟩ := vget_eq_ok hx
    obtain ⟨hlt, _⟩ := List.getElem?_eq_some_iff.1 hget
    simp only [List.length_eraseIdx, hlt, if_true]
    omega
  · obtain ⟨pick, _, h⟩ := bind_eq_ok.1 h
    obtain ⟨c, _, h⟩ := bind_eq_ok.1 h
    obtain ⟨map, hmap, h⟩ := bind_eq_ok.1 h
    obtain ⟨filled, _, h⟩ := bind_eq_ok.1 h
    simp only [pure, Except.pure, Except.ok.injEq] at h
    subst h
    exact ⟨rfl, Or.inr ⟨c, hmap, rfl, rfl, rfl⟩⟩

theorem growLoop_length {rnd : Nat → Nat} {width height cls : Int} (k : Nat) :
    ∀ {s s' : ImageLayout.RandomState},
      ImageLayout.growLoop rnd width height cls k s = .ok s' →
      s'.spectral_class_map_.length = s.spectral_class_map_.length := by
  induction k with
  | zero =>
    intro s s' h
    simp only [ImageLayout.growLoop, pure, Except.pure, Except.ok.injEq] at h
    rw [h]
  | succ k ih =>
    intro s s' h
    unfold ImageLayout.growLoop at h
    split at h
    · simp only [pure, Except.pure, Except.ok.injEq] at h
      rw [h]
    · obtain ⟨s1, h1, h2⟩ := bind_eq_ok.1 h
      rw [ih h2]
      rcases (growStep_cases h1).2 with hc | ⟨c, hc, _⟩
      · rw [hc.1]
      · exact vset_length hc

theorem blobIteration_length {rnd : Nat → Nat} {fuel : Nat}
    {width height num_classes rbs : Int} {s s' : ImageLayout.RandomState}
    (h : ImageLayout.blobIteration rnd fuel width height num_classes rbs s = .ok s') :
    s'.spectral_class_map_.length = s.spectral_class_map_.length := by
  unfold ImageLayout.blobIteration at h
  obtain ⟨cls, _, h⟩ := bind_eq_ok.1 h
  obtain ⟨start, _, h⟩ := bind_eq_ok.1 h
  obtain ⟨seed, _, h⟩ := bind_eq_ok.1 h
  obtain ⟨map, hmap, h⟩ := bind_eq_ok.1 h
  obtain ⟨filled, _, h⟩ := bind_eq_ok.1 h
  obtain ⟨grown, hg, h⟩ := bind_eq_ok.1 h
  simp only [pure, Except.pure, Except.ok.injEq] at h
  subst h
  have := growLoop_length _ hg
  simp only at this ⊢
  rw [this]
  exact vset_length hmap

theorem blobLoop_length {rnd : Nat → Nat} {fuel : Nat} {width height num_classes rbs : Int}
    (k : Nat) :
    ∀ {s s' : ImageLayout.RandomState},
      ImageLayout.blobLoop rnd fuel width height num_classes rbs k s = .ok s' →
      s'.spectral_class_map_.length = s.spectral_class_map_.length := by
  induction k with
  | zero =>
    intro s s' h
    unfold ImageLayout.blobLoop at h
    split at h
    · cases h
    · simp only [pure, Except.pure, Except.ok.injEq] at h
      rw [h]
  | succ k ih =>
    intro s s' h
    unfold ImageLayout.blobLoop at h
    split at h
    · obtain ⟨s1, h1, h2⟩ := bind_eq_ok.1 h
      rw [ih h2]
      exact blobIteration_length h1
    · simp only [pure, Except.pure, Except.ok.injEq] at h
      rw [h]

theorem random_size {rnd : Nat → Nat} {fuel : Nat} {self : ImageLayout}
    {run : ImageLayout.RandomRun} {num_classes rbs : Int}
    (h : self.GenerateRandomLayout rnd fuel num_classes rbs = .ok run)
    (hinv : SizeInv self) : SizeInv run.layout := by
  unfold ImageLayout.GenerateRandomLayout at h
  obtain ⟨final, hf, h⟩ := bind_eq_ok.1 h
  simp only [pure, Except.pure, Except.ok.injEq] at h
  subst h
  have hl := blobLoop_length _ hf
  unfold SizeInv at hinv ⊢
  simp only at hl ⊢
  rw [hl]
  exact hinv

theorem horizontal_frame {self after : ImageLayout} {num_classes stripe_width : Int}
    (h : self.GenerateHorizontalStripesLayout num_classes stripe_width = .ok after) :
    after.image_width_ = self.image_width_ ∧ after.image_height_ = self.image_height_ := by
  unfold ImageLayout.GenerateHorizontalStripesLayout at h
  obtain ⟨ppc, _, h⟩ := bind_eq_ok.1 h
  obtain ⟨m, hm, h⟩ := bind_eq_ok.1 h
  simp only [pure, Except.pure, Except.ok.injEq] at h
  subst h
  exact ⟨rfl, rfl⟩

theorem vertical_frame {self after : ImageLayout} {num_classes stripe_width : Int}
    (h : self.GenerateVerticalStripesLayout num_classes stripe_width = .ok after) :
    after.image_width_ = self.image_width_ ∧ after.image_height_ = self.image_height_ := by
  unfold ImageLayout.GenerateVerticalStripesLayout at h
  obtain ⟨ppc, _, h⟩ := bind_eq_ok.1 h
  obtain ⟨m, hm, h⟩ := bind_eq_ok.1 h
  simp only [pure, Except.pure, Except.ok.injEq] at h
  subst h
  exact ⟨rfl, rfl⟩

theorem grid_frame {self after : ImageLayout} {num_classes square_width : Int}
    (h : self.GenerateGridLayout num_classes square_width = .ok after) :
    after.image_width_ = self.image_width_ ∧ after.image_height_ = self.image_height_ := by
  unfold ImageLayout.GenerateGridLayout at h
  obtain ⟨ppc, _, h⟩ := bind_eq_ok.1 h
  obtain ⟨m, hm, h⟩ := bind_eq_ok.1 h
  simp only [pure, Except.pure, Except.ok.injEq] at h
  subst h
  exact ⟨rfl, rfl⟩

theorem random_frame {rnd : Nat → Nat} {fuel : Nat} {self : ImageLayout}
    {run : ImageLayout.RandomRun} {num_classes rbs : Int}
    (h : self.GenerateRandomLayout rnd fuel num_classes rbs = .ok run) :
    run.layout.image_width_ = self.image_width_ ∧
      run.layout.image_height_ = self.image_height_ := by
  unfold ImageLayout.GenerateRandomLayout at h
  obtain ⟨final, hf, h⟩ := bind_eq_ok.1 h
  simp only [pure, Except.pure, Except.ok.injEq] at h
  subst h
  exact ⟨rfl, rfl⟩

theorem setImageSize_size {rnd : Nat → Nat} {fuel : Nat} {self after : ImageLayout}
    {width height : Int} (h : self.SetImageSize rnd fuel width height = .ok after) :
    SizeInv after ∧ after.image_width_ = width ∧ after.image_height_ = height := by
  unfold ImageLayout.SetImageSize at h
  obtain ⟨m, hm, h⟩ := bind_eq_ok.1 h
  have hres : SizeInv
      { self with image_width_ := width, image_height_ := height, spectral_class_map_ := m } :=
    vresize_length hm
  simp only at h
  split at h
  · have hd := horizontal_frame h
    exact ⟨horizontal_size h hres, hd⟩
  · have hd := vertical_frame h
    exact ⟨vertical_size h hres, hd⟩
  · have hd := grid_frame h
    exact ⟨grid_size h hres, hd⟩
  · obtain ⟨run, hr, h⟩ := bind_eq_ok.1 h
    simp only [pure, Except.pure, Except.ok.injEq] at h
    subst h
    exact ⟨random_size hr hres, random_frame hr⟩
  · simp only [pure, Except.pure, Except.ok.injEq] at h
    subst h
    exact ⟨hres, rfl, rfl⟩

/-- C13: the constructor (width, height >= 1) returns an object whose class map has
width*height entries (`SizeInv`), and every operation that returns keeps that invariant:
the three pattern generators, `GenerateRandomLayout`, `GenerateLayoutFromImage` and
`ResetLayout` on an object that satisfies it, and `SetImageSize` on any object and for any
new size, the regeneration it triggers included, where it also sets the dimensions. -/
theorem C13_class_map_size_invariant (rnd : Nat → Nat) (fuel : Nat) (self : ImageLayout)
    (num_classes size_parameter : Int) (image : ImageLayout.QImage) (hinv : SizeInv self) :
    (∀ width height : Int, 1 ≤ width → 1 ≤ height →
      ∃ fresh, ImageLayout.construct width height = .ok fresh ∧ SizeInv fresh) ∧
    (∀ after, self.GenerateHorizontalStripesLayout num_classes size_parameter = .ok after →
      SizeInv after) ∧
    (∀ after, self.GenerateVerticalStripesLayout num_classes size_parameter = .ok after →
      SizeInv after) ∧
    (∀ after, self.GenerateGridLayout num_classes size_parameter = .ok after →
      SizeInv after) ∧
    (∀ run, self.GenerateRandomLayout rnd fuel num_classes size_parameter = .ok run →
      SizeInv run.layout) ∧
    (∀ after, self.GenerateLayoutFromImage num_classes image = .ok after → SizeInv after) ∧
    SizeInv self.ResetLayout ∧
    (∀ (any after : ImageLayout) (width height : Int),
      any.SetImageSize rnd fuel width height = .ok after →
        SizeInv after ∧ after.image_width_ = width ∧ after.image_height_ = height) := by
  refine ⟨?_, fun _ h => horizontal_size h hinv, fun _ h => vertical_size h hinv,
    fun _ h => grid_size h hinv, fun _ h => random_size h hinv, fun _ h => image_size h hinv,
    ?_, fun _ _ _ _ h => setImageSize_size h⟩
  · intro width height hw hh
    obtain ⟨m, hm, hl⟩ := construct_ok (show 0 ≤ width by omega) (show 0 ≤ height by omega)
    exact ⟨_, hm, hl⟩
  · unfold SizeInv at hinv ⊢
    simp only [ImageLayout.ResetLayout, List.length_map]
    exact hinv

/-- An instance of C13: a 2 x 2 grid with vertical stripes recorded is resized to 3 x 2 by
`SetImageSize`, which regenerates the stripes on 6 entries. -/
theorem C13_class_map_size_invariant_witness :
    SizeInv ⟨3, 2, [0, 1, 0, 0, 1, 0], .LAYOUT_TYPE_VERTICAL_STRIPES, 2, 1⟩ ∧
      (3 : Int) = 3 ∧ (2 : Int) = 2 :=
  (C13_class_map_size_invariant (fun _ => 0) 0
    ⟨2, 2, [0, 1, 0, 1], .LAYOUT_TYPE_VERTICAL_STRIPES, 2, 1⟩ 2 1 ⟨fun _ _ => 0⟩
    (by unfold SizeInv; decide)).2.2.2.2.2.2.2
    ⟨2, 2, [0, 1, 0, 1], .LAYOUT_TYPE_VERTICAL_STRIPES, 2, 1⟩
    ⟨3, 2, [0, 1, 0, 0, 1, 0], .LAYOUT_TYPE_VERTICAL_STRIPES, 2, 1⟩ 3 2 (by decide)

/-! ## The growth loop counts its iterations -/

/-- The growth loop run for `k` iterations from a state with the invariant returns; the
cells it added plus the edge pixels it erased are at most `k`, and are exactly `k` unless it
stopped because no unfilled cell was left or the edge pixels ran out. -/
theorem growLoop_count (rnd : Nat → Nat) {width height : Int} (cls : Int) (k : Nat) :
    ∀ s : ImageLayout.RandomState, RandomInv width height s →
      ∃ s', ImageLayout.growLoop rnd width height cls k s = .ok s' ∧
        s.blob.length ≤ s'.blob.length ∧
        (s'.edge_pixels.length : Int)
          ≤ s.edge_pixels.length + ((s'.blob.length : Int) - s.blob.length) ∧
        ((s'.blob.length : Int) - s.blob.length) +
          ((s.edge_pixels.length : Int) + ((s'.blob.length : Int) - s.blob.length)
            - s'.edge_pixels.length) ≤ k ∧
        (((s'.blob.length : Int) - s.blob.length) +
            ((s.edge_pixels.length : Int) + ((s'.blob.length : Int) - s.blob.length)
              - s'.edge_pixels.length) = k ∨
          s'.num_pixels_remaining ≤ 0 ∨ s'.edge_pixels = []) := by
  induction k with
  | zero =>
    intro s _
    exact ⟨s, rfl, le_refl _, by omega, by omega, Or.inl (by omega)⟩
  | succ k ih =>
    intro s hinv
    by_cases hbreak : s.num_pixels_remaining ≤ 0 ∨ s.edge_pixels.isEmpty
    · refine ⟨s, ?_, le_refl _, by omega, by omega, ?_⟩
      · simp only [ImageLayout.growLoop, hbreak, if_true, pure, Except.pure]
      · rcases hbreak with h | h
        · exact Or.inr (Or.inl h)
        · exact Or.inr (Or.inr (List.isEmpty_iff.1 h))
    · have hedge : s.edge_pixels ≠ [] := by
        intro h
        apply hbreak
        right
        simp [h]
      obtain ⟨s1, hs1, hinv1, _⟩ := growStep_spec rnd 1 1 cls hinv hedge
      obtain ⟨s2, hs2, hb, he, hle, hstop⟩ := ih s1 hinv1
      have hcount : (s1.blob.length = s.blob.length ∧
            s1.edge_pixels.length + 1 = s.edge_pixels.length) ∨
          (s1.blob.length = s.blob.length + 1 ∧
            s1.edge_pixels.length = s.edge_pixels.length + 1) := by
        rcases (growStep_cases hs1).2 with ⟨_, _, hbl, hel⟩ | ⟨c, _, _, hbl, hel⟩
        · left
          rw [hbl]
          exact ⟨rfl, hel⟩
        · right
          rw [hbl, hel]
          simp
      refine ⟨s2, ?_, by omega, by omega, by omega, ?_⟩
      · simp only [ImageLayout.growLoop, hbreak, if_false, hs1, bind, Except.bind]
        exact hs2
      · rcases hstop with h | h | h
        · exact Or.inl (by omega)
        · exact Or.inr (Or.inl h)
        · exact Or.inr (Or.inr h)

/-- C15 (counterexample): a 3 x 1 grid, 1 class, random_blob_size = 3, every draw 0.  The
first blob is seeded at cell 0; its growth loop fills cell 1, then picks edge pixel 0, finds
no unfilled neighbour, erases it, and is over: the blob has 2 cells, not 3, although cell 2
is still unfilled and the edge pixel 1 (its neighbour) is still in the list.  The run ends
with the blobs {0, 1} and {2}. -/
theorem C15_erase_uses_up_growth_step :
    ImageLayout.growLoop (fun _ => 0) 3 1 0 ((3 : Int) - 1).toNat
        ⟨[0, 9, 9], [true, false, false], 2, [0], 2, [(0, 0)], []⟩
      = .ok ⟨[0, 0, 9], [true, true, false], 1, [1], 5, [(0, 0), (1, 0)], []⟩ ∧
    ¬ (([(0, 0), (1, 0)] : List (Int × Int)).length = 3 ∨ (1 : Int) ≤ 0 ∨
        ([1] : List Int) = []) ∧
    (ImageLayout.GenerateRandomLayout (fun _ => 0) 3
        ⟨3, 1, [9, 9, 9], .LAYOUT_TYPE_NONE, 0, 0⟩ 1 3 >>= fun run => pure run.blobs)
      = .ok [[(0, 0), (1, 0)], [(2, 0)]] := by
  decide

/-- C15 (amended): an iteration of the growth loop that erases an edge pixel uses up one of
the random_blob_size - 1 iterations like one that fills a cell.  For random_blob_size >= 1,
the growth loop of a blob (started from a state with the invariant whose blob and edge
pixels hold just the seed) returns with at most random_blob_size cells in the blob, and it
stops only when the number of cells of the blob plus the number of edge pixels erased (the
cells of the blob no longer among the edge pixels) is random_blob_size, or no unfilled cell
remains, or the list of edge pixels is empty. -/
theorem C15_growth_loop_stops (rnd : Nat → Nat) (width height current_class : Int)
    (random_blob_size : Int) (s : ImageLayout.RandomState)
    (hinv : RandomInv width height s) (hrbs : 1 ≤ random_blob_size)
    (hblob : s.blob.length = 1) (hedge : s.edge_pixels.length = 1) :
    (∀ (k : Nat) (t next : ImageLayout.RandomState),
      ¬ (t.num_pixels_remaining ≤ 0 ∨ t.edge_pixels.isEmpty) →
      ImageLayout.growStep rnd width height current_class t = .ok next →
        ImageLayout.growLoop rnd width height current_class (k + 1) t
          = ImageLayout.growLoop rnd width height current_class k next) ∧
    ∃ s', ImageLayout.growLoop rnd width height current_class (random_blob_size - 1).toNat s
        = .ok s' ∧
      s'.edge_pixels.length ≤ s'.blob.length ∧
      (s'.blob.length : Int) ≤ random_blob_size ∧
      ((s'.blob.length : Int) + ((s'.blob.length : Int) - s'.edge_pixels.length)
          = random_blob_size ∨
        s'.num_pixels_remaining ≤ 0 ∨ s'.edge_pixels = []) := by
  constructor
  · intro k t next hbreak hstep
    simp only [ImageLayout.growLoop, hbreak, if_false, hstep, bind, Except.bind]
  · obtain ⟨s', hs', hb, he, hle, hstop⟩ :=
      growLoop_count rnd current_class (random_blob_size - 1).toNat s hinv
    refine ⟨s', hs', by omega, by omega, ?_⟩
    rcases hstop with h | h | h
    · exact Or.inl (by omega)
    · exact Or.inr (Or.inl h)
    · exact Or.inr (Or.inr h)

/-- An instance of the amended C15: the growth loop of the first blob on a 3 x 1 grid with
random_blob_size = 3 and every draw 0. -/
theorem C15_growth_loop_stops_witness :
    ∃ s', ImageLayout.growLoop (fun _ => 0) 3 1 0 ((3 : Int) - 1).toNat
        ⟨[0, 9, 9], [true, false, false], 2, [0], 2, [(0, 0)], []⟩ = .ok s' ∧
      s'.edge_pixels.length ≤ s'.blob.length ∧
      (s'.blob.length : Int) ≤ 3 ∧
      ((s'.blob.length : Int) + ((s'.blob.length : Int) - s'.edge_pixels.length) = 3 ∨
        s'.num_pixels_remaining ≤ 0 ∨ s'.edge_pixels = []) :=
  (C15_growth_loop_stops (fun _ => 0) 3 1 0 3
    ⟨[0, 9, 9], [true, false, false], 2, [0], 2, [(0, 0)], []⟩
    ⟨by decide, by decide, by decide, by decide, by decide, by decide⟩
    (by decide) (by decide) (by decide)).2

end hsi_data_generator
